import Mathlib

/-!
# Verification of the NFL Fantasy Draft core

A shallow embedding of the draft-simulation core (`models.py`, `algorithms.py`,
`draft_simulator.py`) and proofs about it.

Modelling conventions:
* Python `float` values (points, scores, percentiles) are modelled as `ℚ`;
  every arithmetic operation used by the source (addition, multiplication,
  division, `max`/`min`, linear interpolation at quarter points) is exact.
* Python `int` is `Int` (or `Nat` for team ids / counts that are never
  negative in the source).
* Python `set` objects holding player names are modelled as duplicate-free
  `List String` values built only through `setAdd` / `setUnion`.
* Mutating methods become functions returning the updated value; a method that
  both returns a value and mutates (`draft_player`) returns a pair.
* The draft engine calls strategies through duck typing
  (`hasattr` / `__code__.co_varnames` checks); this dynamic interface is
  embedded as the `Strategy` record of the operations the engine uses.
-/

/-! ## models.py : configuration and data model -/

namespace DRAFT_CONFIG

/-- `DRAFT_CONFIG['num_teams']` -/
def num_teams : Nat := 10

/-- `DRAFT_CONFIG['draft_position']` -/
def draft_position : Nat := 5

/-- `DRAFT_CONFIG['roster_spots']` in dict insertion order. -/
def roster_spots : List (String × Nat) :=
  [("QB", 1), ("RB", 2), ("WR", 2), ("TE", 1), ("FLEX", 1), ("K", 1)]

/-- `DRAFT_CONFIG['total_picks']` -/
def total_picks : Nat := 8

end DRAFT_CONFIG

/-- The slot names of the roster dict built by `Team.__init__`. -/
def rosterKeys : List String := ["QB", "RB", "WR", "TE", "FLEX", "K"]

/-- The FLEX-eligible positions `['RB', 'WR', 'TE']`. -/
def skillPositions : List String := ["RB", "WR", "TE"]

/-- `models.Player`: a fantasy football player. -/
structure Player where
  name : String
  position : String
  team : String
  adp_rank : Int
  auction_value : Int
  actual_points : ℚ
  bye_week : Int
deriving DecidableEq, Repr, Inhabited

/-- `models.Team`: a fantasy team's roster.  The Python roster dict with the
six fixed keys QB/RB/WR/TE/FLEX/K becomes six list fields. -/
structure Team where
  team_id : Nat
  qb : List Player
  rb : List Player
  wr : List Player
  te : List Player
  flex : List Player
  k : List Player
  total_points : ℚ
  draft_picks : List Player
deriving DecidableEq, Repr, Inhabited

/-- `Team.__init__`: fresh team with empty roster. -/
def Team.init (team_id : Nat) : Team :=
  { team_id := team_id, qb := [], rb := [], wr := [], te := [], flex := [],
    k := [], total_points := 0, draft_picks := [] }

/-- Lookup `self.roster[pos]` (empty for a key not in the dict). -/
def Team.rosterGet (t : Team) (pos : String) : List Player :=
  if pos = "QB" then t.qb
  else if pos = "RB" then t.rb
  else if pos = "WR" then t.wr
  else if pos = "TE" then t.te
  else if pos = "FLEX" then t.flex
  else if pos = "K" then t.k
  else []

/-- `self.roster[pos].append(p)` (no change for a key not in the dict). -/
def Team.rosterAppend (t : Team) (pos : String) (p : Player) : Team :=
  if pos = "QB" then { t with qb := t.qb ++ [p] }
  else if pos = "RB" then { t with rb := t.rb ++ [p] }
  else if pos = "WR" then { t with wr := t.wr ++ [p] }
  else if pos = "TE" then { t with te := t.te ++ [p] }
  else if pos = "FLEX" then { t with flex := t.flex ++ [p] }
  else if pos = "K" then { t with k := t.k ++ [p] }
  else t

/-- `Team.add_player(player, position=None)`: place the player following the
source's branch order, then update `total_points` and `draft_picks`. -/
def Team.add_player (t : Team) (p : Player) (posArg : Option String) : Team :=
  let position := posArg.getD p.position
  let t1 :=
    if position = "FLEX" ∧ p.position ∈ skillPositions then t.rosterAppend "FLEX" p
    else if position ∈ rosterKeys then t.rosterAppend position p
    else if p.position ∈ rosterKeys then t.rosterAppend p.position p
    else if p.position ∈ skillPositions then t.rosterAppend "FLEX" p
    else t
  { t1 with total_points := t1.total_points + p.actual_points,
            draft_picks := t1.draft_picks ++ [p] }

/-- `Team.get_needs()`: slots whose current count is below capacity, in
`roster_spots` order. -/
def Team.get_needs (t : Team) : List String :=
  (DRAFT_CONFIG.roster_spots.filter
    (fun s => decide ((t.rosterGet s.1).length < s.2))).map Prod.fst

/-- `Team.is_complete()` -/
def Team.is_complete (t : Team) : Bool :=
  t.get_needs.length == 0

/-- Total number of players stored across the six roster slot lists. -/
def Team.slotCount (t : Team) : Nat :=
  t.qb.length + t.rb.length + t.wr.length + t.te.length + t.flex.length + t.k.length

/-- Sum of `actual_points` over all players stored in the roster slots. -/
def Team.rosterPoints (t : Team) : ℚ :=
  ((t.qb ++ t.rb ++ t.wr ++ t.te ++ t.flex ++ t.k).map Player.actual_points).sum

/-- Bye weeks of all rostered players, gathered over `roster.values()` in dict
order (the `hasattr(p, 'bye_week')` guard in the source is always true). -/
def Team.byeWeeks (t : Team) : List Int :=
  ((t.qb ++ t.rb ++ t.wr ++ t.te ++ t.flex ++ t.k).map Player.bye_week)

/-! ## Drafted-name sets (Python `set` of strings) -/

/-- `s.add(x)` on a set modelled as a duplicate-free list. -/
def setAdd (s : List String) (x : String) : List String :=
  if s.contains x then s else x :: s

/-- `s.update(other)` on a set modelled as a duplicate-free list. -/
def setUnion (s other : List String) : List String :=
  other.foldl setAdd s

/-! ## algorithms.py : GreedyDraftAlgorithm -/

/-- The per-strategy player copy made by `GreedyDraftAlgorithm.__init__` and
`RegretDraftAlgorithm.__init__`.  The source constructs a new `Player` from
`name, position, team, adp_rank, auction_value, actual_points` only, so the
copy's `bye_week` is the constructor default `0`. -/
def copyPlayerDropBye (p : Player) : Player :=
  { name := p.name, position := p.position, team := p.team,
    adp_rank := p.adp_rank, auction_value := p.auction_value,
    actual_points := p.actual_points, bye_week := 0 }

/-- The sort key `lambda p: p.adp_rank` as a comparison. -/
def adpLe (a b : Player) : Bool :=
  decide (a.adp_rank ≤ b.adp_rank)

/-- One step of a stable insertion sort for the total preorder `le`: the new
element moves past exactly the elements strictly below it, so it lands before
every element tied with it. -/
def insertLe {α : Type} (le : α → α → Bool) (x : α) : List α → List α
  | [] => [x]
  | y :: ys => if le y x && !(le x y) then y :: insertLe le x ys else x :: y :: ys

/-- Stable sort by the total preorder `le`.  A stable sort's output is uniquely
determined by the key order and the input order, so this computes exactly the
list produced by Python's Timsort (`list.sort`, also with `reverse=True` via a
flipped `le`). -/
def sortLe {α : Type} (le : α → α → Bool) : List α → List α
  | [] => []
  | x :: xs => insertLe le x (sortLe le xs)

/-- State of `algorithms.GreedyDraftAlgorithm`. -/
structure GreedyDraftAlgorithm where
  available_players : List Player
  drafted_players : List String
deriving DecidableEq, Repr, Inhabited

/-- `GreedyDraftAlgorithm.__init__(players)`: copy the pool, sort by ADP rank
(Python's stable sort), start with an empty drafted set. -/
def GreedyDraftAlgorithm.init (players : List Player) : GreedyDraftAlgorithm :=
  { available_players := sortLe adpLe (players.map copyPlayerDropBye),
    drafted_players := [] }

/-- The scan of the first loop in `GreedyDraftAlgorithm.draft_player`: skip
drafted players, return the first one fitting a direct need or a FLEX need. -/
def GreedyDraftAlgorithm.scanNeeds (drafted : List String) (needs : List String) :
    List Player → Option Player
  | [] => none
  | p :: rest =>
    if drafted.contains p.name then GreedyDraftAlgorithm.scanNeeds drafted needs rest
    else if needs.contains p.position then some p
    else if needs.contains "FLEX" && skillPositions.contains p.position then some p
    else GreedyDraftAlgorithm.scanNeeds drafted needs rest

/-- `GreedyDraftAlgorithm.draft_player(team)`: returns the pick (or `none`)
together with the updated instance state. -/
def GreedyDraftAlgorithm.draft_player (a : GreedyDraftAlgorithm) (team : Team) :
    Option Player × GreedyDraftAlgorithm :=
  if team.get_needs.isEmpty then (none, a)
  else
    match GreedyDraftAlgorithm.scanNeeds a.drafted_players team.get_needs
        a.available_players with
    | some p => (some p, { a with drafted_players := setAdd a.drafted_players p.name })
    | none =>
      match a.available_players.find? (fun p => !(a.drafted_players.contains p.name)) with
      | some p => (some p, { a with drafted_players := setAdd a.drafted_players p.name })
      | none => (none, a)

/-! ## algorithms.py : RegretDraftAlgorithm -/

/-- Build `self.position_counts` (dict in first-seen order, one list of
auction values per position). -/
def buildPositionValues (players : List Player) : List (String × List Int) :=
  players.foldl
    (fun acc p =>
      if acc.any (fun e => e.1 == p.position) then
        acc.map (fun e => if e.1 == p.position then (e.1, e.2 ++ [p.auction_value]) else e)
      else acc ++ [(p.position, [p.auction_value])])
    []

/-- Comparison for sorting auction values in reverse (descending) order. -/
def intGe (a b : Int) : Bool :=
  decide (b ≤ a)

/-- State of `algorithms.RegretDraftAlgorithm`. -/
structure RegretDraftAlgorithm where
  all_players : List Player
  drafted_players : List String
  max_auction : Int
  position_counts : List (String × List Int)
deriving DecidableEq, Repr, Inhabited

/-- `RegretDraftAlgorithm.__init__(players)` followed by `_cache_max_values`:
copy the pool, cache `max([auction values], default=1)` and the per-position
value lists sorted descending. -/
def RegretDraftAlgorithm.init (players : List Player) : RegretDraftAlgorithm :=
  let all := players.map copyPlayerDropBye
  { all_players := all,
    drafted_players := [],
    max_auction := (all.map Player.auction_value).max?.getD 1,
    position_counts :=
      (buildPositionValues all).map (fun e => (e.1, sortLe intGe e.2)) }

/-- `RegretDraftAlgorithm.get_available_players()` -/
def RegretDraftAlgorithm.get_available_players (a : RegretDraftAlgorithm) : List Player :=
  a.all_players.filter (fun p => !(a.drafted_players.contains p.name))

/-- Undrafted players at one position (the list comprehension shared by
`calculate_positional_scarcity` and `calculate_value_dropoff`). -/
def RegretDraftAlgorithm.availableAtPosition (a : RegretDraftAlgorithm)
    (position : String) : List Player :=
  a.all_players.filter
    (fun p => p.position == position && !(a.drafted_players.contains p.name))

/-- The comparison `a <= b` on integers as a `Bool`. -/
def intLe (a b : Int) : Bool :=
  decide (a ≤ b)

/-- `np.percentile(values, 75)` with the default linear-interpolation method:
for the ascending sort `s` of `values` with `n` elements, the value at
fractional index `0.75 * (n - 1)`. -/
def percentile75 (values : List Int) : ℚ :=
  let s := sortLe intLe values
  if s.length = 0 then 0
  else
    let k := 3 * (s.length - 1)
    let lo := k / 4
    let r := k % 4
    ((s.getD lo 0 : Int) : ℚ) +
      ((r : ℚ) / 4) * (((s.getD (lo + 1) 0 : Int) : ℚ) - ((s.getD lo 0 : Int) : ℚ))

/-- `RegretDraftAlgorithm.calculate_positional_scarcity(position)` -/
def RegretDraftAlgorithm.calculate_positional_scarcity (a : RegretDraftAlgorithm)
    (position : String) : ℚ :=
  let available := a.availableAtPosition position
  if available.length = 0 then 0
  else if available.length = 1 then 1
  else
    let auction_values := available.map Player.auction_value
    if auction_values.length < 2 then 1
    else
      let threshold := percentile75 auction_values
      let quality_players :=
        (auction_values.filter (fun v : Int => decide (threshold ≤ (v : ℚ)))).length
      let scarcity := max (1 / 10 : ℚ) (1 / (max 1 quality_players : ℚ))
      min 1 scarcity

/-- `RegretDraftAlgorithm.calculate_value_dropoff(position)` -/
def RegretDraftAlgorithm.calculate_value_dropoff (a : RegretDraftAlgorithm)
    (position : String) : ℚ :=
  let available := a.availableAtPosition position
  if available.length < 2 then 0
  else
    let sorted := sortLe (fun p q => decide (q.auction_value ≤ p.auction_value)) available
    let best := (sorted.getD 0 default).auction_value
    let second := (sorted.getD 1 default).auction_value
    if best ≤ 0 then 0
    else min 1 (((max 0 (best - second) : Int) : ℚ) / (best : ℚ))

/-- `RegretDraftAlgorithm.calculate_pick_urgency(picks_until_next)` -/
def RegretDraftAlgorithm.calculate_pick_urgency (picks_until_next : Int) : ℚ :=
  ((min 19 (max 1 picks_until_next) : Int) : ℚ) / 19

/-- `RegretDraftAlgorithm.calculate_regret_score(player, team, picks_until_next)` -/
def RegretDraftAlgorithm.calculate_regret_score (a : RegretDraftAlgorithm)
    (player : Player) (team : Team) (picks_until_next : Int) : ℚ :=
  let value_score : ℚ :=
    if 0 < a.max_auction then (player.auction_value : ℚ) / (a.max_auction : ℚ) else 0
  let scarcity := a.calculate_positional_scarcity player.position
  let dropoff := a.calculate_value_dropoff player.position
  let urgency := RegretDraftAlgorithm.calculate_pick_urgency picks_until_next
  let bye_penalty : ℚ := if player.bye_week ∈ team.byeWeeks then 5 / 100 else 0
  let scarcity_component := scarcity * dropoff * (4 / 10)
  let urgency_component := urgency * (3 / 10)
  let value_component := value_score * (3 / 10)
  max 0 (value_component + scarcity_component + urgency_component - bye_penalty)

/-- The `fills_need` test inside `RegretDraftAlgorithm.draft_player`. -/
def fillsNeed (needs : List String) (p : Player) : Bool :=
  needs.contains p.position ||
    (needs.contains "FLEX" && skillPositions.contains p.position)

/-- The candidate list built by `RegretDraftAlgorithm.draft_player`: score the
available players that fill a need; if none fill a need, score all available
players. -/
def RegretDraftAlgorithm.candidateList (a : RegretDraftAlgorithm) (team : Team)
    (picks_until_next : Int) : List (ℚ × Player) :=
  let available := a.get_available_players
  let needs := team.get_needs
  let c1 := (available.filter (fillsNeed needs)).map
    (fun p => (a.calculate_regret_score p team picks_until_next, p))
  if c1.isEmpty then
    available.map (fun p => (a.calculate_regret_score p team picks_until_next, p))
  else c1

/-- One insertion step of a stable descending sort on the score component:
an element moves past exactly those with strictly greater score. -/
def insertByScore (x : ℚ × Player) : List (ℚ × Player) → List (ℚ × Player)
  | [] => [x]
  | y :: ys => if y.1 ≤ x.1 then x :: y :: ys else y :: insertByScore x ys

/-- Stable sort of the candidate list by score descending.  A stable sort's
output is uniquely determined by the key order and the input order, so this
insertion sort computes the same list as Python's
`candidates.sort(key=lambda x: x[0], reverse=True)`. -/
def sortByScoreDesc : List (ℚ × Player) → List (ℚ × Player)
  | [] => []
  | x :: xs => insertByScore x (sortByScoreDesc xs)

/-- `RegretDraftAlgorithm.draft_player(team, picks_until_next=11)`: returns the
pick (or `none`) together with the updated instance state. -/
def RegretDraftAlgorithm.draft_player (a : RegretDraftAlgorithm) (team : Team)
    (picks_until_next : Int) : Option Player × RegretDraftAlgorithm :=
  if team.get_needs.isEmpty then (none, a)
  else if a.get_available_players.isEmpty then (none, a)
  else if (a.candidateList team picks_until_next).isEmpty then (none, a)
  else
    match sortByScoreDesc (a.candidateList team picks_until_next) with
    | [] => (none, a)
    | best :: _ =>
      (some best.2, { a with drafted_players := setAdd a.drafted_players best.2.name })

/-! ## draft_simulator.py : DraftSimulator

The engine drives strategy objects through duck typing (`hasattr` checks and a
`co_varnames` inspection).  `Strategy σ` collects the operations the engine
actually uses on a strategy object with state type `σ`: calling
`draft_player` (with the urgency argument when accepted, which the embedding
passes always, the strategy ignoring it when the source method lacks the
parameter), reading the `drafted_players` set, replacing it, and reading the
instance's player pool. -/

structure Strategy (σ : Type) where
  draft : σ → Team → Int → Option Player × σ
  drafted : σ → List String
  withDrafted : σ → List String → σ
  pool : σ → List Player

/-- `GreedyDraftAlgorithm` seen through the engine's duck-typed interface
(its `draft_player` has no `picks_until_next` parameter, so the urgency
argument is ignored). -/
def greedyStrategy : Strategy GreedyDraftAlgorithm :=
  { draft := fun s team _ => s.draft_player team,
    drafted := GreedyDraftAlgorithm.drafted_players,
    withDrafted := fun s l => { s with drafted_players := l },
    pool := GreedyDraftAlgorithm.available_players }

/-- `RegretDraftAlgorithm` seen through the engine's duck-typed interface. -/
def regretStrategy : Strategy RegretDraftAlgorithm :=
  { draft := fun s team n => s.draft_player team n,
    drafted := RegretDraftAlgorithm.drafted_players,
    withDrafted := fun s l => { s with drafted_players := l },
    pool := RegretDraftAlgorithm.all_players }

/-- The full per-team player copy made inside `simulate_draft` (this one copies
every field, `bye_week` included). -/
def copyPlayerKeepBye (p : Player) : Player :=
  { name := p.name, position := p.position, team := p.team,
    adp_rank := p.adp_rank, auction_value := p.auction_value,
    actual_points := p.actual_points, bye_week := p.bye_week }

namespace DraftSimulator

/-- `range(1, num_teams + 1)` -/
def snakeAsc (num_teams : Nat) : List Nat :=
  (List.range num_teams).map (· + 1)

/-- `range(num_teams, 0, -1)` -/
def snakeDesc (num_teams : Nat) : List Nat :=
  (snakeAsc num_teams).reverse

/-- `DraftSimulator.generate_snake_draft_order(num_teams, num_rounds)` -/
def generate_snake_draft_order (num_teams num_rounds : Nat) : List Nat :=
  (List.range num_rounds).foldl
    (fun acc round_num =>
      acc ++ (if round_num % 2 = 0 then snakeAsc num_teams else snakeDesc num_teams))
    []

/-- `DraftSimulator._calculate_picks_until_next(current_pick, team_id, draft_order)` -/
def calculate_picks_until_next (current_pick : Nat) (team_id : Nat)
    (draft_order : List Nat) : Int :=
  if team_id ≠ DRAFT_CONFIG.draft_position then 11
  else
    let remaining := draft_order.drop (current_pick + 1)
    match remaining.findIdx? (fun t => t == DRAFT_CONFIG.draft_position) with
    | some i => (i : Int) + 1
    | none => (remaining.length : Int) + 1

/-- The tail of `_execute_draft_pick` after the drafted-set synchronisation:
call `draft_player` and discard a pick the global set already holds. -/
def syncedPick {σ : Type} (S : Strategy σ) (s1 : σ) (team : Team)
    (picks_until_next : Int) (globally_drafted : List String) : Option Player × σ :=
  match (S.draft s1 team picks_until_next).1 with
  | some p =>
    if globally_drafted.contains p.name
    then (none, (S.draft s1 team picks_until_next).2)
    else (some p, (S.draft s1 team picks_until_next).2)
  | none => (none, (S.draft s1 team picks_until_next).2)

/-- `DraftSimulator._execute_draft_pick(algorithm, team, picks_until_next,
globally_drafted)`: push the global set into the strategy's set, then call
`syncedPick`. -/
def execute_draft_pick {σ : Type} (S : Strategy σ) (s : σ) (team : Team)
    (picks_until_next : Int) (globally_drafted : List String) : Option Player × σ :=
  syncedPick S (S.withDrafted s (setUnion (S.drafted s) globally_drafted))
    team picks_until_next globally_drafted

/-- `DraftSimulator._determine_roster_position(player, team)` -/
def determine_roster_position (p : Player) (team : Team) : String :=
  let needs := team.get_needs
  if p.position ∈ needs then p.position
  else if "FLEX" ∈ needs ∧ p.position ∈ skillPositions then "FLEX"
  else p.position

/-- `DraftSimulator._update_all_algorithms(team_algorithms, name)`: add the
drafted name to every strategy instance's set (the optional
`update_available_players` refresh hook is a no-op for both source
algorithms). -/
def update_all_algorithms {σ : Type} (S : Strategy σ) (algs : List σ)
    (name : String) : List σ :=
  algs.map (fun s => S.withDrafted s (setAdd (S.drafted s) name))

/-- The pick-by-pick loop of `simulate_draft`: `rest` is the not-yet-processed
suffix of `draft_order` and `pick_num` its starting index.  On an empty pick
the loop breaks once at least 90 percent of the pool has been drafted,
otherwise the slot is left behind and the loop moves on. -/
def runDraft {σ : Type} [Inhabited σ] (S : Strategy σ) (poolLen : Nat)
    (draft_order : List Nat) :
    List Nat → Nat → List Team → List σ → List String →
    List Team × List σ × List String
  | [], _, teams, algs, globally => (teams, algs, globally)
  | team_id :: rest, pick_num, teams, algs, globally =>
    let team := teams.getD (team_id - 1) (Team.init 0)
    let alg := algs.getD (team_id - 1) default
    let picks_until_next := calculate_picks_until_next pick_num team_id draft_order
    let r := execute_draft_pick S alg team picks_until_next globally
    let algs1 := algs.set (team_id - 1) r.2
    match r.1 with
    | some p =>
      let globally1 := setAdd globally p.name
      let position := determine_roster_position p team
      let team1 := team.add_player p (some position)
      let teams1 := teams.set (team_id - 1) team1
      let algs2 := update_all_algorithms S algs1 p.name
      runDraft S poolLen draft_order rest (pick_num + 1) teams1 algs2 globally1
    | none =>
      if (globally.length : ℚ) ≥ (poolLen : ℚ) * (9 / 10) then (teams, algs1, globally)
      else runDraft S poolLen draft_order rest (pick_num + 1) teams algs1 globally

/-- `DraftSimulator.simulate_draft` from the point where the season's player
list exists (`create_players_for_year` is data loading, outside the core):
round adjustment for short pools, fresh teams, one strategy instance per team
over a full copy of the pool, then the pick loop.  Returns
`(our_team, teams)` or `none` for an empty pool. -/
def simulate_draft {σ : Type} [Inhabited σ] (S : Strategy σ)
    (mkState : List Player → σ) (players : List Player) :
    Option (Team × List Team) :=
  if players.isEmpty then none
  else
    let total_picks_needed := DRAFT_CONFIG.num_teams * DRAFT_CONFIG.total_picks
    let actual_rounds :=
      if players.length < total_picks_needed then
        min DRAFT_CONFIG.total_picks (max 1 (players.length / DRAFT_CONFIG.num_teams))
      else DRAFT_CONFIG.total_picks
    let teams := (List.range DRAFT_CONFIG.num_teams).map (fun i => Team.init (i + 1))
    let algs := (List.range DRAFT_CONFIG.num_teams).map
      (fun _ => mkState (players.map copyPlayerKeepBye))
    let draft_order := generate_snake_draft_order DRAFT_CONFIG.num_teams actual_rounds
    let r := runDraft S players.length draft_order draft_order 0 teams algs []
    some (r.1.getD (DRAFT_CONFIG.draft_position - 1) (Team.init 0), r.1)

end DraftSimulator

/-- The final team list of a simulated draft (`[]` when the draft did not
run). -/
def simTeams (r : Option (Team × List Team)) : List Team :=
  (r.map Prod.snd).getD []

/-! ## Concrete inputs used by witnesses and counterexamples -/

/-- Distinct one-character names for generated test pools. -/
def shortName (i : Nat) : String :=
  String.mk [Char.ofNat (65 + i)]

/-- A pool of exactly `num_teams * total_picks = 80` quarterbacks with
pairwise distinct names. -/
def poolQB80 : List Player :=
  (List.range 80).map (fun i =>
    { name := shortName i, position := "QB", team := "T",
      adp_rank := (i : Int) + 1, auction_value := 10, actual_points := 1,
      bye_week := 0 })

/-- A ten-player pool for exercising the engine's conflict handling. -/
def poolRB10 : List Player :=
  (List.range 10).map (fun i =>
    { name := shortName i, position := "RB", team := "T",
      adp_rank := (i : Int) + 1, auction_value := 10, actual_points := 1,
      bye_week := 0 })

/-- The single player the conflicting strategy below keeps returning. -/
def conflictPlayer : Player :=
  { name := shortName 0, position := "RB", team := "T",
    adp_rank := 1, auction_value := 10, actual_points := 1, bye_week := 0 }

/-- A strategy whose `draft_player` always returns the same player and never
consults or updates its drafted set: the spec's propagation-was-skipped
scenario (`AlreadyDraftedConflict`) made concrete for the engine. -/
def conflictStrategy : Strategy Unit :=
  { draft := fun _ _ _ => (some conflictPlayer, ()),
    drafted := fun _ => [],
    withDrafted := fun _ _ => (),
    pool := fun _ => poolRB10 }

/-- A five-player pool whose ADP ranks are 1..5, in scrambled input order. -/
def pool5 : List Player :=
  [{ name := "A", position := "WR", team := "T", adp_rank := 3,
     auction_value := 40, actual_points := 120, bye_week := 7 },
   { name := "B", position := "QB", team := "T", adp_rank := 1,
     auction_value := 60, actual_points := 300, bye_week := 5 },
   { name := "C", position := "RB", team := "T", adp_rank := 2,
     auction_value := 55, actual_points := 200, bye_week := 7 },
   { name := "D", position := "RB", team := "T", adp_rank := 5,
     auction_value := 30, actual_points := 150, bye_week := 9 },
   { name := "E", position := "TE", team := "T", adp_rank := 4,
     auction_value := 20, actual_points := 90, bye_week := 5 }]

/-- A player whose position is outside the roster keys (for example a team
defense), together with nonzero points. -/
def defensePlayer : Player :=
  { name := "Bears D/ST", position := "DEF", team := "CHI", adp_rank := 90,
    auction_value := 2, actual_points := 5, bye_week := 10 }

/-- A player with a nonzero bye week (source data always carries one). -/
def byePlayer : Player :=
  { name := "ByeGuy", position := "RB", team := "T", adp_rank := 1,
    auction_value := 12, actual_points := 80, bye_week := 5 }

/-! ## Spec-side definitions (formalisations of the spec's wording, to be
compared with the source-derived definitions above) -/

/-- The condition under which `add_player` stores the player in some roster
slot: the effective requested slot or the player's natural position is a
roster key. -/
def Team.placesPlayer (p : Player) (posArg : Option String) : Prop :=
  posArg.getD p.position ∈ rosterKeys ∨ p.position ∈ rosterKeys

/-- A sequence of `add_player` calls, folded over a team. -/
def Team.applyAdds (t : Team) (adds : List (Player × Option String)) : Team :=
  adds.foldl (fun acc a => acc.add_player a.1 a.2) t

/-- Spec wording for the greedy scan: the first undrafted player (in list
order) whose position is a direct need, or who is FLEX-eligible while FLEX is
a need. -/
def greedyNeedMatchSpec (drafted needs : List String) (l : List Player) : Option Player :=
  l.find? (fun p => !(drafted.contains p.name) && fillsNeed needs p)

/-- Spec wording for the greedy fallback: the first undrafted player in list
order regardless of position. -/
def firstUndraftedSpec (drafted : List String) (l : List Player) : Option Player :=
  l.find? (fun p => !(drafted.contains p.name))

/-- Maximum score occurring in a candidate list (`0` for an empty list). -/
def maxScore : List (ℚ × Player) → ℚ
  | [] => 0
  | [c] => c.1
  | c :: c2 :: rest => max c.1 (maxScore (c2 :: rest))

/-- Spec wording for the regret pick: the candidate with the maximum score,
ties broken by earliest position in the candidate (pool) order. -/
def firstMaxCandidate (l : List (ℚ × Player)) : Option (ℚ × Player) :=
  l.find? (fun c => decide (maxScore l ≤ c.1))

/-- Spec wording for the regret-score formula. -/
def regretScoreSpec (a : RegretDraftAlgorithm) (player : Player) (team : Team)
    (picks_until_next : Int) : ℚ :=
  let bye_penalty : ℚ := if player.bye_week ∈ team.byeWeeks then 5 / 100 else 0
  max 0 ((3 / 10) * ((player.auction_value : ℚ) / (a.max_auction : ℚ)) +
    (4 / 10) * a.calculate_positional_scarcity player.position *
      a.calculate_value_dropoff player.position +
    (3 / 10) * RegretDraftAlgorithm.calculate_pick_urgency picks_until_next -
    bye_penalty)

/-- `clamp(x, lo, hi)` as used in the spec's scarcity description. -/
def clampQ (lo hi x : ℚ) : ℚ :=
  max lo (min hi x)

/-- Number of "quality players": undrafted players at the position whose
auction value is at or above the 75th percentile of undrafted auction values
at that position. -/
def RegretDraftAlgorithm.qualityCount (a : RegretDraftAlgorithm) (position : String) : Nat :=
  let values := (a.availableAtPosition position).map Player.auction_value
  (values.filter (fun v : Int => decide (percentile75 values ≤ (v : ℚ)))).length

/-- All names on the rosters of a list of teams, in pick order per team. -/
def rosterNames (teams : List Team) : List String :=
  (teams.map (fun t => t.draft_picks.map Player.name)).flatten

/-- The engine's duck-typed strategy contract, as behavior: what
`_execute_draft_pick` and the pick loop rely on.  Both source algorithms
satisfy it. -/
structure LawfulStrategy {σ : Type} (S : Strategy σ) : Prop where
  drafted_withDrafted : ∀ s l, S.drafted (S.withDrafted s l) = l
  pool_withDrafted : ∀ s l, S.pool (S.withDrafted s l) = S.pool s
  draft_none : ∀ s team n, (S.draft s team n).1 = none → (S.draft s team n).2 = s
  draft_some : ∀ s team n p, (S.draft s team n).1 = some p →
    p ∈ S.pool s ∧ p.name ∉ S.drafted s ∧
    S.drafted (S.draft s team n).2 = p.name :: S.drafted s ∧
    S.pool (S.draft s team n).2 = S.pool s
  draft_progress : ∀ s team n, team.get_needs ≠ [] →
    (∃ p ∈ S.pool s, p.name ∉ S.drafted s) → (S.draft s team n).1.isSome

/-- The loop invariant of the engine's pick-by-pick simulation. -/
structure EngineInv {σ : Type} (S : Strategy σ) (pNames : List String)
    (teams : List Team) (algs : List σ) (globally : List String) : Prop where
  teams_len : teams.length = DRAFT_CONFIG.num_teams
  algs_len : algs.length = DRAFT_CONFIG.num_teams
  drafted_eq : ∀ s ∈ algs, S.drafted s = globally
  pool_names : ∀ s ∈ algs, ((S.pool s).map Player.name).Perm pNames
  pnames_nodup : pNames.Nodup
  glob_sub : ∀ x ∈ globally, x ∈ pNames
  glob_nodup : globally.Nodup
  slots_le : ∀ t ∈ teams, t.slotCount ≤ t.draft_picks.length
  roster_perm : (rosterNames teams).Perm globally

/-- A complete team (every slot filled to capacity), used to exercise the
no-pick branches. -/
def fullTeam : Team :=
  { team_id := 3, qb := [byePlayer], rb := [byePlayer, byePlayer],
    wr := [byePlayer, byePlayer], te := [byePlayer], flex := [byePlayer],
    k := [byePlayer], total_points := 0, draft_picks := [] }

/-! ## Lemmas: name sets -/

theorem setAdd_of_mem {s : List String} {x : String} (h : x ∈ s) :
    setAdd s x = s := by
  simp [setAdd, h]

theorem setAdd_of_not_mem {s : List String} {x : String} (h : x ∉ s) :
    setAdd s x = x :: s := by
  simp [setAdd, h]

theorem setUnion_of_subset {s l : List String} (h : ∀ x ∈ l, x ∈ s) :
    setUnion s l = s := by
  induction l generalizing s with
  | nil => rfl
  | cons a l ih =>
    have ha : a ∈ s := h a (by simp)
    simp only [setUnion, List.foldl_cons]
    rw [setAdd_of_mem ha]
    exact ih (fun x hx => h x (by simp [hx]))

/-! ## Lemmas: Team -/

theorem Team.get_needs_init (i : Nat) : (Team.init i).get_needs = rosterKeys := rfl

theorem Team.get_needs_ne_nil_of_picks_lt {t : Team}
    (hslots : t.slotCount ≤ t.draft_picks.length)
    (hlt : t.draft_picks.length < DRAFT_CONFIG.total_picks) :
    t.get_needs ≠ [] := by
  intro h
  rw [Team.get_needs, List.map_eq_nil_iff, List.filter_eq_nil_iff] at h
  have h1 := h ("QB", 1) (by simp [DRAFT_CONFIG.roster_spots])
  have h2 := h ("RB", 2) (by simp [DRAFT_CONFIG.roster_spots])
  have h3 := h ("WR", 2) (by simp [DRAFT_CONFIG.roster_spots])
  have h4 := h ("TE", 1) (by simp [DRAFT_CONFIG.roster_spots])
  have h5 := h ("FLEX", 1) (by simp [DRAFT_CONFIG.roster_spots])
  have h6 := h ("K", 1) (by simp [DRAFT_CONFIG.roster_spots])
  have e1 : t.rosterGet "QB" = t.qb := rfl
  have e2 : t.rosterGet "RB" = t.rb := rfl
  have e3 : t.rosterGet "WR" = t.wr := rfl
  have e4 : t.rosterGet "TE" = t.te := rfl
  have e5 : t.rosterGet "FLEX" = t.flex := rfl
  have e6 : t.rosterGet "K" = t.k := rfl
  simp only [e1] at h1; simp only [e2] at h2; simp only [e3] at h3
  simp only [e4] at h4; simp only [e5] at h5; simp only [e6] at h6
  simp only [decide_eq_true_eq] at h1 h2 h3 h4 h5 h6
  simp [Team.slotCount] at hslots
  simp [DRAFT_CONFIG.total_picks] at hlt
  omega

theorem Team.rosterAppend_draft_picks (t : Team) (pos : String) (p : Player) :
    (t.rosterAppend pos p).draft_picks = t.draft_picks := by
  simp only [Team.rosterAppend]
  split_ifs <;> rfl

theorem Team.rosterAppend_total_points (t : Team) (pos : String) (p : Player) :
    (t.rosterAppend pos p).total_points = t.total_points := by
  simp only [Team.rosterAppend]
  split_ifs <;> rfl

theorem Team.rosterAppend_team_id (t : Team) (pos : String) (p : Player) :
    (t.rosterAppend pos p).team_id = t.team_id := by
  simp only [Team.rosterAppend]
  split_ifs <;> rfl

theorem Team.rosterAppend_slotCount_le (t : Team) (pos : String) (p : Player) :
    (t.rosterAppend pos p).slotCount ≤ t.slotCount + 1 := by
  simp only [Team.rosterAppend]
  split_ifs <;> simp [Team.slotCount] <;> omega

theorem Team.add_player_draft_picks (t : Team) (p : Player) (posArg : Option String) :
    (t.add_player p posArg).draft_picks = t.draft_picks ++ [p] := by
  simp only [Team.add_player]
  split_ifs <;> simp [Team.rosterAppend_draft_picks]

theorem Team.add_player_total_points (t : Team) (p : Player) (posArg : Option String) :
    (t.add_player p posArg).total_points = t.total_points + p.actual_points := by
  simp only [Team.add_player]
  split_ifs <;> simp [Team.rosterAppend_total_points]

theorem Team.add_player_slotCount_le (t : Team) (p : Player) (posArg : Option String) :
    (t.add_player p posArg).slotCount ≤ t.slotCount + 1 := by
  simp only [Team.add_player]
  have h1 := fun pos => Team.rosterAppend_slotCount_le t pos p
  split_ifs <;> simp [Team.slotCount] at h1 ⊢ <;> first | omega | (apply h1)

theorem Team.rosterPoints_update (t1 : Team) (x : ℚ) (y : List Player) :
    ({ t1 with total_points := x, draft_picks := y } : Team).rosterPoints
      = t1.rosterPoints := rfl

theorem Team.rosterAppend_rosterPoints {pos : String} (h : pos ∈ rosterKeys)
    (t : Team) (p : Player) :
    (t.rosterAppend pos p).rosterPoints = t.rosterPoints + p.actual_points := by
  simp only [rosterKeys, List.mem_cons, List.not_mem_nil, or_false] at h
  rcases h with h | h | h | h | h | h <;> subst h <;>
    simp [Team.rosterAppend, Team.rosterPoints, List.sum_append] <;> ring

theorem Team.add_player_rosterPoints (t : Team) (p : Player) (posArg : Option String)
    (h : Team.placesPlayer p posArg) :
    (t.add_player p posArg).rosterPoints = t.rosterPoints + p.actual_points := by
  have h' : posArg.getD p.position ∈ rosterKeys ∨ p.position ∈ rosterKeys := h
  simp only [Team.add_player, Team.rosterPoints_update]
  split_ifs with h1 h2 h3 h4
  · exact Team.rosterAppend_rosterPoints (by simp [rosterKeys]) t p
  · exact Team.rosterAppend_rosterPoints h2 t p
  · exact Team.rosterAppend_rosterPoints h3 t p
  · exact Team.rosterAppend_rosterPoints (by simp [rosterKeys]) t p
  · rcases h' with h' | h'
    · exact absurd h' h2
    · exact absurd h' h3

theorem Team.add_player_rb_of_qb {p : Player} (hp : p.position = "QB")
    (t : Team) :
    (t.add_player p (some "QB")).rb = t.rb := by
  simp [Team.add_player, Team.rosterAppend, rosterKeys, skillPositions, hp]

theorem DraftSimulator.determine_qb {p : Player} (hp : p.position = "QB")
    (team : Team) :
    DraftSimulator.determine_roster_position p team = "QB" := by
  simp only [DraftSimulator.determine_roster_position, hp]
  split_ifs with h1 h2
  · rfl
  · exact absurd h2.2 (by simp [skillPositions])
  · rfl

/-! ## Lemmas: GreedyDraftAlgorithm -/

theorem GreedyDraftAlgorithm.scanNeeds_eq_spec (drafted needs : List String)
    (l : List Player) :
    GreedyDraftAlgorithm.scanNeeds drafted needs l = greedyNeedMatchSpec drafted needs l := by
  induction l with
  | nil => rfl
  | cons q rest ih =>
    rw [GreedyDraftAlgorithm.scanNeeds]
    split_ifs with h1 h2 h3
    · rw [ih, greedyNeedMatchSpec, greedyNeedMatchSpec,
        List.find?_cons_of_neg _
          (by simp [fillsNeed]; intro hq; exact absurd (by simpa using h1) hq)]
    · rw [greedyNeedMatchSpec,
        List.find?_cons_of_pos _
          (by simp [fillsNeed]; exact ⟨by simpa using h1, Or.inl (by simpa using h2)⟩)]
    · rw [greedyNeedMatchSpec,
        List.find?_cons_of_pos _
          (by simp [fillsNeed]; exact ⟨by simpa using h1, Or.inr (by simpa using h3)⟩)]
    · rw [ih, greedyNeedMatchSpec, greedyNeedMatchSpec,
        List.find?_cons_of_neg _
          (by simp [fillsNeed]
              exact fun _ => ⟨by simpa using h2, by
                intro hf hq
                exact (by simpa using h3 :
                  ¬("FLEX" ∈ needs ∧ q.position ∈ skillPositions)) ⟨hf, hq⟩⟩)]

theorem GreedyDraftAlgorithm.scanNeeds_mem {drafted needs : List String}
    {l : List Player} {p : Player}
    (h : GreedyDraftAlgorithm.scanNeeds drafted needs l = some p) :
    p ∈ l ∧ p.name ∉ drafted := by
  rw [GreedyDraftAlgorithm.scanNeeds_eq_spec, greedyNeedMatchSpec] at h
  refine ⟨List.mem_of_find?_eq_some h, ?_⟩
  have := List.find?_some h
  simp at this
  exact this.1

theorem GreedyDraftAlgorithm.find?_undrafted_mem {drafted : List String}
    {l : List Player} {p : Player}
    (h : l.find? (fun q => !(drafted.contains q.name)) = some p) :
    p ∈ l ∧ p.name ∉ drafted := by
  refine ⟨List.mem_of_find?_eq_some h, ?_⟩
  have := List.find?_some h
  simpa using this

theorem GreedyDraftAlgorithm.greedy_pick_cases (a : GreedyDraftAlgorithm) (team : Team) :
    ((a.draft_player team).1 = none ∧ (a.draft_player team).2 = a) ∨
    (∃ p, (a.draft_player team).1 = some p ∧ p ∈ a.available_players ∧
      p.name ∉ a.drafted_players ∧
      (a.draft_player team).2
        = { a with drafted_players := p.name :: a.drafted_players }) := by
  by_cases h1 : team.get_needs.isEmpty = true
  · refine Or.inl ⟨?_, ?_⟩ <;>
      simp only [GreedyDraftAlgorithm.draft_player, if_pos h1]
  · rcases hs : GreedyDraftAlgorithm.scanNeeds a.drafted_players team.get_needs
      a.available_players with _ | p
    · rcases hf : a.available_players.find?
        (fun q => !(a.drafted_players.contains q.name)) with _ | p
      · refine Or.inl ⟨?_, ?_⟩ <;>
          simp only [GreedyDraftAlgorithm.draft_player, if_neg h1, hs, hf]
      · rcases GreedyDraftAlgorithm.find?_undrafted_mem hf with ⟨hm, hn⟩
        refine Or.inr ⟨p, ?_, hm, hn, ?_⟩ <;>
          simp only [GreedyDraftAlgorithm.draft_player, if_neg h1, hs, hf,
            setAdd_of_not_mem hn]
    · rcases GreedyDraftAlgorithm.scanNeeds_mem hs with ⟨hm, hn⟩
      refine Or.inr ⟨p, ?_, hm, hn, ?_⟩ <;>
        simp only [GreedyDraftAlgorithm.draft_player, if_neg h1, hs,
          setAdd_of_not_mem hn]

theorem GreedyDraftAlgorithm.greedy_pick_progress (a : GreedyDraftAlgorithm)
    (team : Team) (hneeds : team.get_needs ≠ [])
    (hex : ∃ p ∈ a.available_players, p.name ∉ a.drafted_players) :
    ((a.draft_player team).1).isSome := by
  have h1 : ¬ team.get_needs.isEmpty = true := by
    simpa [List.isEmpty_iff] using hneeds
  rcases hs : GreedyDraftAlgorithm.scanNeeds a.drafted_players team.get_needs
      a.available_players with _ | p
  · rcases hex with ⟨p0, hp0, hn0⟩
    have hsome : (a.available_players.find?
        (fun q => !(a.drafted_players.contains q.name))).isSome := by
      rw [List.find?_isSome]
      exact ⟨p0, hp0, by simpa using hn0⟩
    rcases Option.isSome_iff_exists.1 hsome with ⟨p1, hp1⟩
    simp only [GreedyDraftAlgorithm.draft_player, if_neg h1, hs, hp1]
    rfl
  · simp only [GreedyDraftAlgorithm.draft_player, if_neg h1, hs]
    rfl

/-! ## Lemmas: stable descending sort of scored candidates -/

theorem mem_insertByScore {x y : ℚ × Player} {l : List (ℚ × Player)} :
    y ∈ insertByScore x l ↔ y = x ∨ y ∈ l := by
  induction l with
  | nil => simp [insertByScore]
  | cons b t ih =>
    rw [insertByScore]
    split_ifs with h
    · simp
    · simp [ih]
      tauto

theorem mem_sortByScoreDesc {y : ℚ × Player} {l : List (ℚ × Player)} :
    y ∈ sortByScoreDesc l ↔ y ∈ l := by
  induction l with
  | nil => simp [sortByScoreDesc]
  | cons b t ih => simp [sortByScoreDesc, mem_insertByScore, ih]

theorem sortByScoreDesc_eq_nil_iff {l : List (ℚ × Player)} :
    sortByScoreDesc l = [] ↔ l = [] := by
  induction l with
  | nil => simp [sortByScoreDesc]
  | cons b t ih =>
    simp only [sortByScoreDesc]
    constructor
    · intro h
      rcases hi : insertByScore b (sortByScoreDesc t) with _ | _
      · rcases ht : sortByScoreDesc t with _ | ⟨c, t1⟩
        · simp [insertByScore, ht] at hi
        · rw [ht, insertByScore] at hi
          split_ifs at hi
      · rw [hi] at h
        exact absurd h (by simp)
    · intro h
      exact absurd h (by simp)

theorem le_maxScore_of_mem {c : ℚ × Player} {l : List (ℚ × Player)} (h : c ∈ l) :
    c.1 ≤ maxScore l := by
  induction l with
  | nil => simp at h
  | cons b t ih =>
    rcases t with _ | ⟨b2, t2⟩
    · simp at h
      simp [h, maxScore]
    · rw [show maxScore (b :: b2 :: t2) = max b.1 (maxScore (b2 :: t2)) from rfl]
      rcases List.mem_cons.1 h with h | h
      · simp [h]
      · exact le_trans (ih h) (le_max_right _ _)

theorem maxScore_cons_of_ne_nil {a : ℚ × Player} {l : List (ℚ × Player)}
    (h : l ≠ []) : maxScore (a :: l) = max a.1 (maxScore l) := by
  rcases l with _ | ⟨b, t⟩
  · exact absurd rfl h
  · rfl

theorem sortByScoreDesc_head {l : List (ℚ × Player)} {c : ℚ × Player}
    {t : List (ℚ × Player)} (h : sortByScoreDesc l = c :: t) :
    firstMaxCandidate l = some c := by
  induction l generalizing c t with
  | nil => simp [sortByScoreDesc] at h
  | cons a l2 ih =>
    rcases hl2 : sortByScoreDesc l2 with _ | ⟨h0, t0⟩
    · have hnil : l2 = [] := sortByScoreDesc_eq_nil_iff.1 hl2
      subst hnil
      simp only [sortByScoreDesc, sortByScoreDesc.eq_1, insertByScore] at h
      rcases h with ⟨rfl, rfl⟩
      simp [firstMaxCandidate, maxScore, List.find?]
    · have hl2ne : l2 ≠ [] := by
        intro hx
        rw [hx] at hl2
        simp [sortByScoreDesc] at hl2
      have ihh := ih hl2
      have h0max : h0.1 = maxScore l2 := by
        have hle : maxScore l2 ≤ h0.1 := by
          have := List.find?_some ihh
          simpa using this
        have hge : h0.1 ≤ maxScore l2 :=
          le_maxScore_of_mem (List.mem_of_find?_eq_some ihh)
        exact le_antisymm hge hle
      rw [sortByScoreDesc, hl2, insertByScore] at h
      split_ifs at h with hle
      · injection h with h1 h2
        subst h1
        have hm : maxScore (a :: l2) = a.1 := by
          rw [maxScore_cons_of_ne_nil hl2ne]
          exact max_eq_left (by rw [← h0max]; exact hle)
        rw [firstMaxCandidate]
        simp only [hm]
        exact List.find?_cons_of_pos _ (by simp)
      · injection h with h1 h2
        subst h1
        push_neg at hle
        have hm : maxScore (a :: l2) = maxScore l2 := by
          rw [maxScore_cons_of_ne_nil hl2ne]
          exact max_eq_right (by rw [← h0max]; exact le_of_lt hle)
        rw [firstMaxCandidate]
        simp only [hm]
        rw [List.find?_cons_of_neg _ (by
          simp only [decide_eq_true_eq, not_le]
          rw [← h0max]
          exact hle)]
        rw [firstMaxCandidate] at ihh
        exact ihh

/-! ## Lemmas: RegretDraftAlgorithm -/

theorem RegretDraftAlgorithm.mem_get_available {a : RegretDraftAlgorithm} {p : Player} :
    p ∈ a.get_available_players ↔ p ∈ a.all_players ∧ p.name ∉ a.drafted_players := by
  simp [RegretDraftAlgorithm.get_available_players]

theorem RegretDraftAlgorithm.candidateList_snd_mem {a : RegretDraftAlgorithm}
    {team : Team} {n : Int} {c : ℚ × Player}
    (h : c ∈ a.candidateList team n) : c.2 ∈ a.get_available_players := by
  rw [RegretDraftAlgorithm.candidateList] at h
  split_ifs at h
  · rcases List.mem_map.1 h with ⟨p, hp, rfl⟩
    exact hp
  · rcases List.mem_map.1 h with ⟨p, hp, rfl⟩
    exact List.mem_of_mem_filter hp

theorem RegretDraftAlgorithm.candidateList_ne_nil {a : RegretDraftAlgorithm}
    {team : Team} {n : Int} (h : a.get_available_players ≠ []) :
    a.candidateList team n ≠ [] := by
  rw [RegretDraftAlgorithm.candidateList]
  split_ifs with h1
  · simpa using h
  · simpa [List.isEmpty_iff] using h1

theorem RegretDraftAlgorithm.regret_pick_cases (a : RegretDraftAlgorithm)
    (team : Team) (n : Int) :
    ((a.draft_player team n).1 = none ∧ (a.draft_player team n).2 = a) ∨
    (∃ p, (a.draft_player team n).1 = some p ∧ p ∈ a.all_players ∧
      p.name ∉ a.drafted_players ∧
      (a.draft_player team n).2
        = { a with drafted_players := p.name :: a.drafted_players }) := by
  by_cases h1 : team.get_needs.isEmpty = true
  · refine Or.inl ⟨?_, ?_⟩ <;>
      simp only [RegretDraftAlgorithm.draft_player, if_pos h1]
  · by_cases h2 : a.get_available_players.isEmpty = true
    · refine Or.inl ⟨?_, ?_⟩ <;>
        simp only [RegretDraftAlgorithm.draft_player, if_neg h1, if_pos h2]
    · by_cases h3 : (a.candidateList team n).isEmpty = true
      · refine Or.inl ⟨?_, ?_⟩ <;>
          simp only [RegretDraftAlgorithm.draft_player, if_neg h1, if_neg h2, if_pos h3]
      · rcases hsort : sortByScoreDesc (a.candidateList team n) with _ | ⟨best, t⟩
        · refine Or.inl ⟨?_, ?_⟩ <;>
            simp only [RegretDraftAlgorithm.draft_player, if_neg h1, if_neg h2,
              if_neg h3, hsort]
        · have hbmem : best ∈ a.candidateList team n :=
            mem_sortByScoreDesc.1 (hsort ▸ List.mem_cons_self _ _)
          have hav := RegretDraftAlgorithm.candidateList_snd_mem hbmem
          rcases RegretDraftAlgorithm.mem_get_available.1 hav with ⟨hall, hnd⟩
          refine Or.inr ⟨best.2, ?_, hall, hnd, ?_⟩ <;>
            simp only [RegretDraftAlgorithm.draft_player, if_neg h1, if_neg h2,
              if_neg h3, hsort, setAdd_of_not_mem hnd]

theorem RegretDraftAlgorithm.regret_pick_progress (a : RegretDraftAlgorithm)
    (team : Team) (n : Int) (hneeds : team.get_needs ≠ [])
    (hex : ∃ p ∈ a.all_players, p.name ∉ a.drafted_players) :
    ((a.draft_player team n).1).isSome := by
  have h1 : ¬ team.get_needs.isEmpty = true := by
    simpa [List.isEmpty_iff] using hneeds
  rcases hex with ⟨p0, hp0, hn0⟩
  have hav : a.get_available_players ≠ [] :=
    List.ne_nil_of_mem (RegretDraftAlgorithm.mem_get_available.2 ⟨hp0, hn0⟩)
  have h2 : ¬ a.get_available_players.isEmpty = true := by
    simpa [List.isEmpty_iff] using hav
  have hcand : a.candidateList team n ≠ [] :=
    RegretDraftAlgorithm.candidateList_ne_nil hav
  have h3 : ¬ (a.candidateList team n).isEmpty = true := by
    simpa [List.isEmpty_iff] using hcand
  have hsne : sortByScoreDesc (a.candidateList team n) ≠ [] := by
    intro h
    exact hcand (sortByScoreDesc_eq_nil_iff.1 h)
  rcases hsort : sortByScoreDesc (a.candidateList team n) with _ | ⟨best, t⟩
  · exact absurd hsort hsne
  · simp only [RegretDraftAlgorithm.draft_player, if_neg h1, if_neg h2, if_neg h3, hsort]
    rfl

/-! ## Lemmas: both source algorithms satisfy the engine's contract -/

theorem greedyLawful : LawfulStrategy greedyStrategy := by
  refine ⟨fun s l => rfl, fun s l => rfl, ?_, ?_, ?_⟩
  · intro s team n h
    rcases GreedyDraftAlgorithm.greedy_pick_cases s team with ⟨h1, h2⟩ | ⟨p, h1, hm, hn, h2⟩
    · exact h2
    · simp only [greedyStrategy] at h
      rw [h1] at h
      cases h
  · intro s team n p h
    rcases GreedyDraftAlgorithm.greedy_pick_cases s team with ⟨h1, h2⟩ | ⟨q, h1, hm, hn, h2⟩
    · simp only [greedyStrategy] at h
      rw [h1] at h
      cases h
    · simp only [greedyStrategy] at h ⊢
      rw [h1] at h
      injection h with h
      subst h
      exact ⟨hm, hn, by rw [h2], by rw [h2]⟩
  · intro s team n hneeds hex
    exact GreedyDraftAlgorithm.greedy_pick_progress s team hneeds hex

theorem regretLawful : LawfulStrategy regretStrategy := by
  refine ⟨fun s l => rfl, fun s l => rfl, ?_, ?_, ?_⟩
  · intro s team n h
    rcases RegretDraftAlgorithm.regret_pick_cases s team n with ⟨h1, h2⟩ | ⟨p, h1, hm, hn, h2⟩
    · exact h2
    · simp only [regretStrategy] at h
      rw [h1] at h
      cases h
  · intro s team n p h
    rcases RegretDraftAlgorithm.regret_pick_cases s team n with ⟨h1, h2⟩ | ⟨q, h1, hm, hn, h2⟩
    · simp only [regretStrategy] at h
      rw [h1] at h
      cases h
    · simp only [regretStrategy] at h ⊢
      rw [h1] at h
      injection h with h
      subst h
      exact ⟨hm, hn, by rw [h2], by rw [h2]⟩
  · intro s team n hneeds hex
    exact RegretDraftAlgorithm.regret_pick_progress s team n hneeds hex

/-! ## Lemmas: the draft engine -/

namespace DraftSimulator

theorem syncedPick_conflict {σ : Type} (S : Strategy σ) {s1 : σ} {team : Team}
    {n : Int} {g : List String} {p : Player}
    (hdraft : (S.draft s1 team n).1 = some p) (hmem : g.contains p.name = true) :
    syncedPick S s1 team n g = (none, (S.draft s1 team n).2) := by
  simp only [syncedPick, hdraft, if_pos hmem]

theorem syncedPick_clean {σ : Type} (S : Strategy σ) {s1 : σ} {team : Team}
    {n : Int} {g : List String} {p : Player}
    (hdraft : (S.draft s1 team n).1 = some p) (hmem : g.contains p.name = false) :
    syncedPick S s1 team n g = (some p, (S.draft s1 team n).2) := by
  simp only [syncedPick, hdraft, hmem]
  rfl

theorem syncedPick_none {σ : Type} (S : Strategy σ) {s1 : σ} {team : Team}
    {n : Int} {g : List String}
    (hdraft : (S.draft s1 team n).1 = none) :
    syncedPick S s1 team n g = (none, (S.draft s1 team n).2) := by
  simp only [syncedPick, hdraft]

theorem execute_success {σ : Type} {S : Strategy σ} (hL : LawfulStrategy S)
    (s : σ) (team : Team) (n : Int) (g : List String)
    (hsync : S.drafted s = g)
    (hneeds : team.get_needs ≠ [])
    (hex : ∃ q ∈ S.pool s, q.name ∉ g) :
    ∃ p, (execute_draft_pick S s team n g).1 = some p ∧
      p ∈ S.pool s ∧ p.name ∉ g ∧
      S.drafted (execute_draft_pick S s team n g).2 = p.name :: g ∧
      S.pool (execute_draft_pick S s team n g).2 = S.pool s := by
  have hu : setUnion (S.drafted s) g = g := by
    rw [hsync]
    exact setUnion_of_subset (fun x hx => hx)
  have hd1 : S.drafted (S.withDrafted s (setUnion (S.drafted s) g)) = g := by
    rw [hL.drafted_withDrafted, hu]
  have hp1 : S.pool (S.withDrafted s (setUnion (S.drafted s) g)) = S.pool s :=
    hL.pool_withDrafted s _
  have hprog := hL.draft_progress (S.withDrafted s (setUnion (S.drafted s) g)) team n
    hneeds (by rw [hd1, hp1]; exact hex)
  rcases Option.isSome_iff_exists.1 hprog with ⟨p, hdraft⟩
  rcases hL.draft_some _ team n p hdraft with ⟨hmem, hnd, hdset, hpool⟩
  rw [hd1] at hnd hdset
  rw [hp1] at hmem hpool
  have hcont : g.contains p.name = false := by simpa using hnd
  refine ⟨p, ?_, hmem, hnd, ?_, ?_⟩ <;>
    rw [execute_draft_pick, syncedPick_clean S hdraft hcont]
  · exact hdset
  · exact hpool

theorem update_all_drafted {σ : Type} {S : Strategy σ} (hL : LawfulStrategy S)
    {algs : List σ} {g : List String} {nm : String}
    (h : ∀ s ∈ algs, S.drafted s = g ∨ S.drafted s = nm :: g) (hnm : nm ∉ g) :
    ∀ s ∈ update_all_algorithms S algs nm, S.drafted s = nm :: g := by
  intro s hs
  rcases List.mem_map.1 hs with ⟨x, hx, rfl⟩
  rw [hL.drafted_withDrafted]
  rcases h x hx with hx1 | hx1
  · rw [hx1, setAdd_of_not_mem hnm]
  · rw [hx1, setAdd_of_mem (by simp)]

theorem update_all_pool {σ : Type} {S : Strategy σ} (hL : LawfulStrategy S)
    {algs : List σ} {nm : String} {P : List Player → Prop}
    (h : ∀ s ∈ algs, P (S.pool s)) :
    ∀ s ∈ update_all_algorithms S algs nm, P (S.pool s) := by
  intro s hs
  rcases List.mem_map.1 hs with ⟨x, hx, rfl⟩
  rw [hL.pool_withDrafted]
  exact h x hx

theorem rosterNames_set_perm {teams : List Team} {i : Nat} (h : i < teams.length)
    {tnew : Team} {p : Player}
    (hnew : tnew.draft_picks = (teams.getD i (Team.init 0)).draft_picks ++ [p]) :
    (rosterNames (teams.set i tnew)).Perm (p.name :: rosterNames teams) := by
  induction teams generalizing i with
  | nil => simp at h
  | cons t0 ts ih =>
    rcases i with _ | i
    · simp only [List.getD_cons_zero] at hnew
      simp only [List.set_cons_zero, rosterNames, List.map_cons, List.flatten_cons, hnew]
      simp only [List.map_append]
      rw [List.append_assoc]
      exact List.perm_middle.trans (by simp)
    · simp only [List.getD_cons_succ] at hnew
      have hlen : i < ts.length := by simpa using h
      have hrec := ih hlen hnew
      have step1 : (t0.draft_picks.map Player.name ++ rosterNames (ts.set i tnew)).Perm
          (t0.draft_picks.map Player.name ++ (p.name :: rosterNames ts)) :=
        List.Perm.append_left _ hrec
      have step2 : (t0.draft_picks.map Player.name ++ (p.name :: rosterNames ts)).Perm
          (p.name :: (t0.draft_picks.map Player.name ++ rosterNames ts)) :=
        List.perm_middle
      have hfin := step1.trans step2
      simpa [rosterNames] using hfin

end DraftSimulator

/-! ## List indexing helpers -/

theorem getDSetEq {α : Type} {l : List α} {i : Nat} (h : i < l.length)
    (x d : α) : (l.set i x).getD i d = x := by
  rw [List.getD_eq_getElem _ d (by simpa using h)]
  simp [List.getElem_set]

theorem getDSetNe {α : Type} {l : List α} {i j : Nat} (hne : i ≠ j)
    (x d : α) : (l.set i x).getD j d = l.getD j d := by
  rcases Nat.lt_or_ge j l.length with hj | hj
  · rw [List.getD_eq_getElem _ d (by simpa using hj),
      List.getD_eq_getElem _ d hj]
    exact List.getElem_set_ne hne _
  · rw [List.getD_eq_default _ d (by simpa using hj),
      List.getD_eq_default _ d hj]

theorem getDMem {α : Type} {l : List α} {i : Nat} (h : i < l.length) (d : α) :
    l.getD i d ∈ l := by
  rw [List.getD_eq_getElem _ d h]
  exact List.getElem_mem h

namespace DraftSimulator

/-- One successful engine step: with the pick succeeding, `runDraft` on a
`team_id :: rest` order advances to `rest` with the updated state. -/
theorem runDraft_total {σ : Type} [Inhabited σ] {S : Strategy σ}
    (hL : LawfulStrategy S) (pNames : List String) (poolLen : Nat)
    (draft_order : List Nat) :
    ∀ (rest : List Nat) (pick_num : Nat) (teams : List Team) (algs : List σ)
      (globally : List String),
    EngineInv S pNames teams algs globally →
    (∀ x ∈ rest, 1 ≤ x ∧ x ≤ DRAFT_CONFIG.num_teams) →
    globally.length + rest.length ≤ pNames.length →
    (∀ i, i < DRAFT_CONFIG.num_teams →
      (teams.getD i (Team.init 0)).draft_picks.length + rest.count (i + 1)
        ≤ DRAFT_CONFIG.total_picks) →
    EngineInv S pNames
        (runDraft S poolLen draft_order rest pick_num teams algs globally).1
        (runDraft S poolLen draft_order rest pick_num teams algs globally).2.1
        (runDraft S poolLen draft_order rest pick_num teams algs globally).2.2 ∧
    (runDraft S poolLen draft_order rest pick_num teams algs globally).2.2.length
        = globally.length + rest.length ∧
    (∀ i, i < DRAFT_CONFIG.num_teams →
      ((runDraft S poolLen draft_order rest pick_num teams algs globally).1.getD i
          (Team.init 0)).draft_picks.length
        = (teams.getD i (Team.init 0)).draft_picks.length + rest.count (i + 1)) := by
  intro rest
  induction rest with
  | nil =>
    intro pick_num teams algs globally inv hrange hlen hcount
    refine ⟨inv, by simp [runDraft], ?_⟩
    intro i hi
    simp [runDraft]
  | cons tid rest ih =>
    intro pick_num teams algs globally inv hrange hlen hcount
    have h10 : DRAFT_CONFIG.num_teams = 10 := rfl
    have h8 : DRAFT_CONFIG.total_picks = 8 := rfl
    have htid := hrange tid (by simp)
    have hidx : tid - 1 < teams.length := by
      rw [inv.teams_len, h10]; omega
    have hidxa : tid - 1 < algs.length := by
      rw [inv.algs_len, h10]; omega
    have hteamMem : teams.getD (tid - 1) (Team.init 0) ∈ teams := getDMem hidx _
    have halgMem : algs.getD (tid - 1) default ∈ algs := getDMem hidxa _
    -- the picking team still has an open slot
    have htsub : tid - 1 + 1 = tid := by omega
    have hc0 := hcount (tid - 1) (by rw [h10]; omega)
    rw [htsub, List.count_cons_self] at hc0
    have hneeds : (teams.getD (tid - 1) (Team.init 0)).get_needs ≠ [] := by
      refine Team.get_needs_ne_nil_of_picks_lt
        (inv.slots_le _ hteamMem) ?_
      rw [h8] at hc0 ⊢
      omega
    -- an undrafted pool name still exists
    have hglen : globally.length < pNames.length := by
      rw [List.length_cons] at hlen
      omega
    have hexname : ∃ x ∈ pNames, x ∉ globally := by
      by_contra hno
      push_neg at hno
      have hsub : pNames ⊆ globally := fun x hx => hno x hx
      have := (List.subperm_of_subset inv.pnames_nodup hsub).length_le
      omega
    have hex : ∃ q ∈ S.pool (algs.getD (tid - 1) default), q.name ∉ globally := by
      rcases hexname with ⟨x, hxp, hxg⟩
      have hxm : x ∈ (S.pool (algs.getD (tid - 1) default)).map Player.name :=
        (inv.pool_names _ halgMem).mem_iff.2 hxp
      rcases List.mem_map.1 hxm with ⟨q, hq, rfl⟩
      exact ⟨q, hq, hxg⟩
    -- the pick succeeds
    rcases execute_success hL (algs.getD (tid - 1) default)
        (teams.getD (tid - 1) (Team.init 0))
        (calculate_picks_until_next pick_num tid draft_order) globally
        (inv.drafted_eq _ halgMem) hneeds hex with
      ⟨p, hx1, hpmem, hpnot, hdset, hpool⟩
    have hga : setAdd globally p.name = p.name :: globally :=
      setAdd_of_not_mem hpnot
    have hstep : runDraft S poolLen draft_order (tid :: rest) pick_num teams algs globally
        = runDraft S poolLen draft_order rest (pick_num + 1)
            (teams.set (tid - 1)
              ((teams.getD (tid - 1) (Team.init 0)).add_player p
                (some (determine_roster_position p (teams.getD (tid - 1) (Team.init 0))))))
            (update_all_algorithms S
              (algs.set (tid - 1)
                (execute_draft_pick S (algs.getD (tid - 1) default)
                  (teams.getD (tid - 1) (Team.init 0))
                  (calculate_picks_until_next pick_num tid draft_order) globally).2)
              p.name)
            (p.name :: globally) := by
      simp only [runDraft]
      simp only [hx1]
      rw [hga]
    -- the new state satisfies the invariant
    have hpicks1 : ((teams.getD (tid - 1) (Team.init 0)).add_player p
        (some (determine_roster_position p (teams.getD (tid - 1) (Team.init 0))))).draft_picks
        = (teams.getD (tid - 1) (Team.init 0)).draft_picks ++ [p] :=
      Team.add_player_draft_picks _ _ _
    have hpname : p.name ∈ pNames :=
      (inv.pool_names _ halgMem).mem_iff.1 (List.mem_map_of_mem Player.name hpmem)
    have inv1 : EngineInv S pNames
        (teams.set (tid - 1)
          ((teams.getD (tid - 1) (Team.init 0)).add_player p
            (some (determine_roster_position p (teams.getD (tid - 1) (Team.init 0))))))
        (update_all_algorithms S
          (algs.set (tid - 1)
            (execute_draft_pick S (algs.getD (tid - 1) default)
              (teams.getD (tid - 1) (Team.init 0))
              (calculate_picks_until_next pick_num tid draft_order) globally).2)
          p.name)
        (p.name :: globally) := by
      refine ⟨?_, ?_, ?_, ?_, inv.pnames_nodup, ?_, ?_, ?_, ?_⟩
      · rw [List.length_set]; exact inv.teams_len
      · rw [update_all_algorithms, List.length_map, List.length_set]
        exact inv.algs_len
      · refine update_all_drafted hL ?_ hpnot
        intro s hs
        rcases List.mem_or_eq_of_mem_set hs with hs | hs
        · exact Or.inl (inv.drafted_eq s hs)
        · subst hs
          exact Or.inr hdset
      · refine @update_all_pool σ S hL _ _
          (fun l => (l.map Player.name).Perm pNames) ?_
        intro s hs
        rcases List.mem_or_eq_of_mem_set hs with hs | hs
        · exact inv.pool_names s hs
        · subst hs
          rw [hpool]
          exact inv.pool_names _ halgMem
      · intro x hx
        rcases List.mem_cons.1 hx with hx | hx
        · subst hx; exact hpname
        · exact inv.glob_sub x hx
      · exact List.nodup_cons.2 ⟨hpnot, inv.glob_nodup⟩
      · intro t ht
        rcases List.mem_or_eq_of_mem_set ht with ht | ht
        · exact inv.slots_le t ht
        · subst ht
          have h1 := Team.add_player_slotCount_le (teams.getD (tid - 1) (Team.init 0)) p
            (some (determine_roster_position p (teams.getD (tid - 1) (Team.init 0))))
          have h2 := inv.slots_le _ hteamMem
          rw [hpicks1, List.length_append]
          simp only [List.length_singleton]
          omega
      · refine (rosterNames_set_perm hidx hpicks1).trans ?_
        exact inv.roster_perm.cons p.name
    have hih := ih (pick_num + 1)
      (teams.set (tid - 1)
        ((teams.getD (tid - 1) (Team.init 0)).add_player p
          (some (determine_roster_position p (teams.getD (tid - 1) (Team.init 0))))))
      (update_all_algorithms S
        (algs.set (tid - 1)
          (execute_draft_pick S (algs.getD (tid - 1) default)
            (teams.getD (tid - 1) (Team.init 0))
            (calculate_picks_until_next pick_num tid draft_order) globally).2)
        p.name)
      (p.name :: globally) inv1
      (fun x hx => hrange x (List.mem_cons_of_mem _ hx))
      (by rw [List.length_cons] at hlen; simp only [List.length_cons]; omega)
      (by
        intro i hi
        by_cases hieq : i = tid - 1
        · subst hieq
          rw [getDSetEq hidx, hpicks1, List.length_append, htsub]
          simp only [List.length_singleton]
          omega
        · rw [getDSetNe (fun hcc => hieq hcc.symm)]
          have hne2 : i + 1 ≠ tid := by omega
          have hcnt := hcount i hi
          rw [List.count_cons_of_ne hne2] at hcnt
          exact hcnt)
    rcases hih with ⟨ihInv, ihLen, ihPicks⟩
    rw [hstep]
    refine ⟨ihInv, ?_, ?_⟩
    · rw [ihLen]
      simp only [List.length_cons]
      omega
    · intro i hi
      rw [ihPicks i hi]
      by_cases hieq : i = tid - 1
      · subst hieq
        rw [getDSetEq hidx, hpicks1, List.length_append, htsub,
          List.count_cons_self]
        simp only [List.length_singleton]
        omega
      · rw [getDSetNe (fun hcc => hieq hcc.symm)]
        have hne2 : i + 1 ≠ tid := by omega
        rw [List.count_cons_of_ne hne2]

end DraftSimulator

theorem copyPlayerKeepBye_eq_id : copyPlayerKeepBye = id :=
  funext (fun _ => rfl)

namespace DraftSimulator

/-- `simulate_draft` over a pool of exactly `num_teams * total_picks` players
with pairwise distinct names: every pick succeeds, so every team ends with
`total_picks` players and the drafted names exhaust the pool. -/
theorem simulate_draft_total {σ : Type} [Inhabited σ] {S : Strategy σ}
    (hL : LawfulStrategy S) (mk : List Player → σ) (players : List Player)
    (hmk1 : ∀ ps, S.drafted (mk ps) = [])
    (hmk2 : ∀ ps, ((S.pool (mk ps)).map Player.name).Perm (ps.map Player.name))
    (hlen : players.length = DRAFT_CONFIG.num_teams * DRAFT_CONFIG.total_picks)
    (hnd : (players.map Player.name).Nodup) :
    ∃ pr : Team × List Team, simulate_draft S mk players = some pr ∧
      pr.2.length = DRAFT_CONFIG.num_teams ∧
      (∀ t ∈ pr.2, t.draft_picks.length = DRAFT_CONFIG.total_picks) ∧
      (rosterNames pr.2).Perm (players.map Player.name) := by
  have h80 : players.length = 80 := hlen
  have hne : ¬ players.isEmpty = true := by
    rcases players with _ | _
    · simp at h80
    · simp
  have hlt : ¬ players.length < DRAFT_CONFIG.num_teams * DRAFT_CONFIG.total_picks := by
    omega
  have hsim : simulate_draft S mk players = some
      ((runDraft S players.length
          (generate_snake_draft_order DRAFT_CONFIG.num_teams DRAFT_CONFIG.total_picks)
          (generate_snake_draft_order DRAFT_CONFIG.num_teams DRAFT_CONFIG.total_picks)
          0 ((List.range DRAFT_CONFIG.num_teams).map (fun i => Team.init (i + 1)))
          ((List.range DRAFT_CONFIG.num_teams).map
            (fun _ => mk (players.map copyPlayerKeepBye)))
          []).1.getD (DRAFT_CONFIG.draft_position - 1) (Team.init 0),
        (runDraft S players.length
          (generate_snake_draft_order DRAFT_CONFIG.num_teams DRAFT_CONFIG.total_picks)
          (generate_snake_draft_order DRAFT_CONFIG.num_teams DRAFT_CONFIG.total_picks)
          0 ((List.range DRAFT_CONFIG.num_teams).map (fun i => Team.init (i + 1)))
          ((List.range DRAFT_CONFIG.num_teams).map
            (fun _ => mk (players.map copyPlayerKeepBye)))
          []).1) := by
    simp only [simulate_draft, if_neg hne, if_neg hlt]
  have hcpy : players.map copyPlayerKeepBye = players := by
    rw [copyPlayerKeepBye_eq_id, List.map_id]
  have inv0 : EngineInv S (players.map Player.name)
      ((List.range DRAFT_CONFIG.num_teams).map (fun i => Team.init (i + 1)))
      ((List.range DRAFT_CONFIG.num_teams).map
        (fun _ => mk (players.map copyPlayerKeepBye)))
      [] := by
    refine ⟨by simp, by simp, ?_, ?_, hnd, ?_, List.nodup_nil, ?_, ?_⟩
    · intro s hs
      rcases List.mem_map.1 hs with ⟨i, _, rfl⟩
      exact hmk1 _
    · intro s hs
      rcases List.mem_map.1 hs with ⟨i, _, rfl⟩
      rw [hcpy] at *
      exact hmk2 players
    · intro x hx
      simp at hx
    · intro t ht
      rcases List.mem_map.1 ht with ⟨i, _, rfl⟩
      exact Nat.le_refl _
    · have : rosterNames ((List.range DRAFT_CONFIG.num_teams).map
          (fun i => Team.init (i + 1))) = [] := by
        rw [rosterNames]
        rw [List.flatten_eq_nil_iff]
        intro l hl
        rcases List.mem_map.1 hl with ⟨t, ht, rfl⟩
        rcases List.mem_map.1 ht with ⟨i, _, rfl⟩
        rfl
      rw [this]
  have hord1 : ∀ x ∈ generate_snake_draft_order DRAFT_CONFIG.num_teams
      DRAFT_CONFIG.total_picks, 1 ≤ x ∧ x ≤ DRAFT_CONFIG.num_teams := by decide
  have hord2 : (generate_snake_draft_order DRAFT_CONFIG.num_teams
      DRAFT_CONFIG.total_picks).length = 80 := by decide
  have hord3 : ∀ i, i < DRAFT_CONFIG.num_teams →
      (generate_snake_draft_order DRAFT_CONFIG.num_teams
        DRAFT_CONFIG.total_picks).count (i + 1) = 8 := by decide
  have hcount0 : ∀ i, i < DRAFT_CONFIG.num_teams →
      (((List.range DRAFT_CONFIG.num_teams).map
          (fun i => Team.init (i + 1))).getD i (Team.init 0)).draft_picks.length +
        (generate_snake_draft_order DRAFT_CONFIG.num_teams
          DRAFT_CONFIG.total_picks).count (i + 1) ≤ DRAFT_CONFIG.total_picks := by
    intro i hi
    have hilt : i < ((List.range DRAFT_CONFIG.num_teams).map
        (fun i => Team.init (i + 1))).length := by simpa using hi
    rw [List.getD_eq_getElem _ _ hilt]
    rw [List.getElem_map, List.getElem_range]
    rw [hord3 i hi]
    exact Nat.le_refl _
  have hlen0 : ([] : List String).length +
      (generate_snake_draft_order DRAFT_CONFIG.num_teams
        DRAFT_CONFIG.total_picks).length ≤ (players.map Player.name).length := by
    rw [hord2, List.length_map, h80]
    simp
  have hr := runDraft_total hL (players.map Player.name) players.length
    (generate_snake_draft_order DRAFT_CONFIG.num_teams DRAFT_CONFIG.total_picks)
    (generate_snake_draft_order DRAFT_CONFIG.num_teams DRAFT_CONFIG.total_picks)
    0 ((List.range DRAFT_CONFIG.num_teams).map (fun i => Team.init (i + 1)))
    ((List.range DRAFT_CONFIG.num_teams).map
      (fun _ => mk (players.map copyPlayerKeepBye)))
    [] inv0 hord1 hlen0 hcount0
  rcases hr with ⟨rInv, rLen, rPicks⟩
  refine ⟨_, hsim, rInv.teams_len, ?_, ?_⟩
  · intro t ht
    rcases List.mem_iff_getElem.1 ht with ⟨i, hilt, rfl⟩
    have hi10 : i < DRAFT_CONFIG.num_teams := by
      rw [← rInv.teams_len]
      exact hilt
    have := rPicks i hi10
    rw [List.getD_eq_getElem _ _ hilt] at this
    rw [this]
    have hilt0 : i < ((List.range DRAFT_CONFIG.num_teams).map
        (fun i => Team.init (i + 1))).length := by simpa using hi10
    rw [List.getD_eq_getElem _ _ hilt0, List.getElem_map, List.getElem_range]
    rw [hord3 i hi10]
    rfl
  · have hglob := rInv.roster_perm
    have hsubp : (runDraft S players.length
        (generate_snake_draft_order DRAFT_CONFIG.num_teams DRAFT_CONFIG.total_picks)
        (generate_snake_draft_order DRAFT_CONFIG.num_teams DRAFT_CONFIG.total_picks)
        0 ((List.range DRAFT_CONFIG.num_teams).map (fun i => Team.init (i + 1)))
        ((List.range DRAFT_CONFIG.num_teams).map
          (fun _ => mk (players.map copyPlayerKeepBye)))
        []).2.2.Subperm (players.map Player.name) :=
      List.subperm_of_subset rInv.glob_nodup (fun x hx => rInv.glob_sub x hx)
    have hpermg := hsubp.perm_of_length_le (by
      rw [rLen, hord2, List.length_map, h80]
      simp)
    exact hglob.trans hpermg

end DraftSimulator

namespace DraftSimulator

theorem execute_pool {σ : Type} {S : Strategy σ} (hL : LawfulStrategy S)
    (s : σ) (team : Team) (n : Int) (g : List String) :
    S.pool (execute_draft_pick S s team n g).2 = S.pool s ∧
    (∀ p, (execute_draft_pick S s team n g).1 = some p → p ∈ S.pool s) := by
  have hp1 : S.pool (S.withDrafted s (setUnion (S.drafted s) g)) = S.pool s :=
    hL.pool_withDrafted s _
  rcases hd : (S.draft (S.withDrafted s (setUnion (S.drafted s) g)) team n).1 with _ | q
  · have h2 := hL.draft_none _ team n hd
    rw [execute_draft_pick, syncedPick_none S hd]
    constructor
    · rw [h2, hp1]
    · intro p hp
      cases hp
  · rcases hL.draft_some _ team n q hd with ⟨hmem, _, _, hpool⟩
    rw [hp1] at hmem
    have hfin : S.pool (S.draft (S.withDrafted s (setUnion (S.drafted s) g)) team n).2
        = S.pool s := hpool.trans hp1
    rcases hcont : g.contains q.name with _ | _
    · rw [execute_draft_pick, syncedPick_clean S hd hcont]
      exact ⟨hfin, fun p hp => by
        injection hp with hp
        subst hp
        exact hmem⟩
    · rw [execute_draft_pick, syncedPick_conflict S hd hcont]
      exact ⟨hfin, fun p hp => by cases hp⟩

/-- With a pool containing only quarterbacks, no pick is ever stored in the RB
slot: the engine routes every pick to the QB list. -/
theorem runDraft_rb_empty {σ : Type} [Inhabited σ] {S : Strategy σ}
    (hL : LawfulStrategy S) (poolLen : Nat) (draft_order : List Nat) :
    ∀ (rest : List Nat) (pick_num : Nat) (teams : List Team) (algs : List σ)
      (globally : List String),
    (∀ i q, q ∈ S.pool (algs.getD i default) → q.position = "QB") →
    (∀ t ∈ teams, t.rb = []) →
    (∀ t ∈ (runDraft S poolLen draft_order rest pick_num teams algs globally).1,
      t.rb = []) ∧
    (runDraft S poolLen draft_order rest pick_num teams algs globally).1.length
      = teams.length := by
  intro rest
  induction rest with
  | nil =>
    intro pick_num teams algs globally hqb hrb
    exact ⟨hrb, rfl⟩
  | cons tid rest ih =>
    intro pick_num teams algs globally hqb hrb
    have hpoolpres := execute_pool hL (algs.getD (tid - 1) default)
      (teams.getD (tid - 1) (Team.init 0))
      (calculate_picks_until_next pick_num tid draft_order) globally
    have hqb1 : ∀ i q, q ∈ S.pool ((algs.set (tid - 1)
        (execute_draft_pick S (algs.getD (tid - 1) default)
          (teams.getD (tid - 1) (Team.init 0))
          (calculate_picks_until_next pick_num tid draft_order) globally).2).getD i
          default) → q.position = "QB" := by
      intro i q hq
      by_cases hi : i < algs.length
      · by_cases hie : i = tid - 1
        · subst hie
          rw [getDSetEq hi] at hq
          rw [hpoolpres.1] at hq
          exact hqb _ q hq
        · rw [getDSetNe (fun hcc => hie hcc.symm)] at hq
          exact hqb i q hq
      · have hd1 : (algs.set (tid - 1)
            (execute_draft_pick S (algs.getD (tid - 1) default)
              (teams.getD (tid - 1) (Team.init 0))
              (calculate_picks_until_next pick_num tid draft_order) globally).2).getD i
            default = default :=
          List.getD_eq_default _ _ (by rw [List.length_set]; omega)
        rw [hd1] at hq
        have hd2 : algs.getD i default = default :=
          List.getD_eq_default _ _ (by omega)
        exact hqb i q (by rw [hd2]; exact hq)
    rcases hx : (execute_draft_pick S (algs.getD (tid - 1) default)
        (teams.getD (tid - 1) (Team.init 0))
        (calculate_picks_until_next pick_num tid draft_order) globally).1 with _ | p
    · have hstep : runDraft S poolLen draft_order (tid :: rest) pick_num teams algs globally
          = if (globally.length : ℚ) ≥ (poolLen : ℚ) * (9 / 10)
            then (teams, algs.set (tid - 1)
              (execute_draft_pick S (algs.getD (tid - 1) default)
                (teams.getD (tid - 1) (Team.init 0))
                (calculate_picks_until_next pick_num tid draft_order) globally).2, globally)
            else runDraft S poolLen draft_order rest (pick_num + 1) teams
              (algs.set (tid - 1)
                (execute_draft_pick S (algs.getD (tid - 1) default)
                  (teams.getD (tid - 1) (Team.init 0))
                  (calculate_picks_until_next pick_num tid draft_order) globally).2)
              globally := by
        simp only [runDraft]
        simp only [hx]
      rw [hstep]
      split_ifs with hbreak
      · exact ⟨hrb, rfl⟩
      · exact ih (pick_num + 1) teams _ globally hqb1 hrb
    · have hposp : p.position = "QB" := by
        refine hqb (tid - 1) p ?_
        exact hpoolpres.2 p hx
      have hstep : runDraft S poolLen draft_order (tid :: rest) pick_num teams algs globally
          = runDraft S poolLen draft_order rest (pick_num + 1)
              (teams.set (tid - 1)
                ((teams.getD (tid - 1) (Team.init 0)).add_player p
                  (some (determine_roster_position p (teams.getD (tid - 1) (Team.init 0))))))
              (update_all_algorithms S
                (algs.set (tid - 1)
                  (execute_draft_pick S (algs.getD (tid - 1) default)
                    (teams.getD (tid - 1) (Team.init 0))
                    (calculate_picks_until_next pick_num tid draft_order) globally).2)
                p.name)
              (setAdd globally p.name) := by
        simp only [runDraft]
        simp only [hx]
      rw [hstep]
      have hrb1 : ∀ t ∈ teams.set (tid - 1)
          ((teams.getD (tid - 1) (Team.init 0)).add_player p
            (some (determine_roster_position p (teams.getD (tid - 1) (Team.init 0))))),
          t.rb = [] := by
        intro t ht
        rcases List.mem_or_eq_of_mem_set ht with ht | ht
        · exact hrb t ht
        · subst ht
          rw [determine_qb hposp, Team.add_player_rb_of_qb hposp]
          by_cases hidx : tid - 1 < teams.length
          · exact hrb _ (getDMem hidx _)
          · rw [List.getD_eq_default _ _ (by omega)]
            rfl
      have hqb2 : ∀ i q, q ∈ S.pool ((update_all_algorithms S
          (algs.set (tid - 1)
            (execute_draft_pick S (algs.getD (tid - 1) default)
              (teams.getD (tid - 1) (Team.init 0))
              (calculate_picks_until_next pick_num tid draft_order) globally).2)
          p.name).getD i default) → q.position = "QB" := by
        intro i q hq
        by_cases hi : i < algs.length
        · have hi2 : i < (algs.set (tid - 1)
              (execute_draft_pick S (algs.getD (tid - 1) default)
                (teams.getD (tid - 1) (Team.init 0))
                (calculate_picks_until_next pick_num tid draft_order) globally).2).length := by
            rw [List.length_set]; exact hi
          rw [update_all_algorithms] at hq
          rw [List.getD_eq_getElem _ _ (by rw [List.length_map]; exact hi2)] at hq
          rw [List.getElem_map] at hq
          rw [hL.pool_withDrafted] at hq
          refine hqb1 i q ?_
          rw [List.getD_eq_getElem _ _ hi2]
          exact hq
        · rw [List.getD_eq_default _ _ (by
            rw [update_all_algorithms, List.length_map, List.length_set]; omega)] at hq
          have h2 : algs.getD i default = default :=
            List.getD_eq_default _ _ (by omega)
          exact hqb i q (by rw [h2]; exact hq)
      have := ih (pick_num + 1) _ _ (setAdd globally p.name) hqb2 hrb1
      rcases this with ⟨ha, hb⟩
      exact ⟨ha, by rw [hb, List.length_set]⟩

end DraftSimulator

/-! ## Supporting lemmas for the claim theorems -/

theorem le_max?_getD {l : List Int} {x : Int} (hx : x ∈ l) (d : Int) :
    x ≤ l.max?.getD d := by
  induction l with
  | nil => simp at hx
  | cons a t ih =>
    rw [List.max?_cons]
    rcases List.mem_cons.1 hx with rfl | hx
    · rcases ht : t.max? with _ | m
      · simp [ht]
      · simp only [ht, Option.elim, Option.getD_some]
        exact le_max_left _ _
    · rcases ht : t.max? with _ | m
      · rw [List.max?_eq_none_iff] at ht
        rw [ht] at hx
        simp at hx
      · have hle := ih hx
        rw [ht, Option.getD_some] at hle
        simp only [ht, Option.elim, Option.getD_some]
        exact le_trans hle (le_max_right _ _)

namespace DraftSimulator

theorem snakeAsc_length (n : Nat) : (snakeAsc n).length = n := by
  simp [snakeAsc]

theorem snakeDesc_length (n : Nat) : (snakeDesc n).length = n := by
  simp [snakeDesc, snakeAsc_length]

theorem snake_order_succ (N R : Nat) :
    generate_snake_draft_order N (R + 1)
      = generate_snake_draft_order N R
        ++ (if R % 2 = 0 then snakeAsc N else snakeDesc N) := by
  rw [generate_snake_draft_order, generate_snake_draft_order,
    List.range_succ, List.foldl_append]
  rfl

theorem snake_order_length (N R : Nat) :
    (generate_snake_draft_order N R).length = R * N := by
  induction R with
  | zero => simp [generate_snake_draft_order]
  | succ R ih =>
    rw [snake_order_succ, List.length_append, ih]
    split_ifs <;> rw [Nat.succ_mul] <;>
      simp [snakeAsc_length, snakeDesc_length]

theorem snake_order_segment {N R r : Nat} (h : r < R) :
    ((generate_snake_draft_order N R).drop (r * N)).take N
      = (if r % 2 = 0 then snakeAsc N else snakeDesc N) := by
  induction R with
  | zero => omega
  | succ R ih =>
    rcases Nat.lt_or_ge r R with hr | hr
    · rw [snake_order_succ,
        List.drop_append_of_le_length
          (by rw [snake_order_length]; exact Nat.mul_le_mul_right N (by omega)),
        List.take_append_of_le_length ?hlen]
      · exact ih hr
      · rw [List.length_drop, snake_order_length]
        have h1 : (r + 1) * N ≤ R * N := Nat.mul_le_mul_right N (by omega)
        have h2 : (r + 1) * N = r * N + N := by ring
        omega
    · have hrR : r = R := by omega
      subst hrR
      rw [snake_order_succ]
      rw [show r * N = (generate_snake_draft_order N r).length from
        (snake_order_length N r).symm]
      rw [List.drop_left]
      split_ifs <;> exact List.take_of_length_le (by
        simp [snakeAsc_length, snakeDesc_length])

end DraftSimulator

theorem Team.applyAdds_picks (adds : List (Player × Option String)) :
    ∀ t : Team, (t.applyAdds adds).draft_picks
      = t.draft_picks ++ adds.map Prod.fst := by
  induction adds with
  | nil => intro t; simp [Team.applyAdds]
  | cons a rest ih =>
    intro t
    rw [Team.applyAdds, List.foldl_cons]
    rw [show List.foldl (fun acc b => acc.add_player b.1 b.2) (t.add_player a.1 a.2) rest
      = (t.add_player a.1 a.2).applyAdds rest from rfl]
    rw [ih, Team.add_player_draft_picks]
    simp

theorem Team.applyAdds_total (adds : List (Player × Option String)) :
    ∀ t : Team, (t.applyAdds adds).total_points
      = t.total_points + (adds.map (fun a => a.1.actual_points)).sum := by
  induction adds with
  | nil => intro t; simp [Team.applyAdds]
  | cons a rest ih =>
    intro t
    rw [Team.applyAdds, List.foldl_cons]
    rw [show List.foldl (fun acc b => acc.add_player b.1 b.2) (t.add_player a.1 a.2) rest
      = (t.add_player a.1 a.2).applyAdds rest from rfl]
    rw [ih, Team.add_player_total_points]
    simp
    ring

theorem Team.applyAdds_rosterPoints (adds : List (Player × Option String)) :
    ∀ t : Team, (∀ a ∈ adds, Team.placesPlayer a.1 a.2) →
      (t.applyAdds adds).rosterPoints
        = t.rosterPoints + (adds.map (fun a => a.1.actual_points)).sum := by
  induction adds with
  | nil => intro t _; simp [Team.applyAdds]
  | cons a rest ih =>
    intro t hplace
    rw [Team.applyAdds, List.foldl_cons]
    rw [show List.foldl (fun acc b => acc.add_player b.1 b.2) (t.add_player a.1 a.2) rest
      = (t.add_player a.1 a.2).applyAdds rest from rfl]
    rw [ih _ (fun b hb => hplace b (List.mem_cons_of_mem _ hb)),
      Team.add_player_rosterPoints _ _ _ (hplace a (by simp))]
    simp
    ring

/-! ## Claim theorems -/

/-- C8: `generate_snake_draft_order` emits, for every 0-indexed even round,
teams `1..num_teams` ascending and, for every odd round, `num_teams..1`
descending; in particular for 4 teams and 2 rounds the order is
`[1,2,3,4,4,3,2,1]`. -/
theorem snake_order_claim :
    (∀ N R r, r < R →
      (((DraftSimulator.generate_snake_draft_order N R).drop (r * N)).take N)
        = (if r % 2 = 0 then DraftSimulator.snakeAsc N
           else DraftSimulator.snakeDesc N)) ∧
    DraftSimulator.generate_snake_draft_order 4 2 = [1, 2, 3, 4, 4, 3, 2, 1] := by
  constructor
  · intro N R r h
    exact DraftSimulator.snake_order_segment h
  · decide

/-- C8 witness: round 1 (0-indexed) of a 4-team, 2-round order is the
descending block. -/
theorem snake_order_claim_witness :
    ((DraftSimulator.generate_snake_draft_order 4 2).drop (1 * 4)).take 4
      = DraftSimulator.snakeDesc 4 := by
  have h := snake_order_claim.1 4 2 1 (by decide)
  simpa using h

/-- C3 (amended): after any sequence of `add_player` calls on a fresh team,
`draft_picks` has one entry per call and `total_points` equals the sum of the
added players' points (equivalently, the sum over `draft_picks`); the sum over
the roster slots agrees whenever every call actually stores its player in a
slot (requested slot or natural position among the roster keys), which a
position outside the roster keys violates. -/
theorem team_add_player_invariant (adds : List (Player × Option String)) (i : Nat) :
    ((Team.init i).applyAdds adds).draft_picks.length = adds.length ∧
    ((Team.init i).applyAdds adds).total_points
      = (((Team.init i).applyAdds adds).draft_picks.map Player.actual_points).sum ∧
    ((∀ a ∈ adds, Team.placesPlayer a.1 a.2) →
      ((Team.init i).applyAdds adds).total_points
        = ((Team.init i).applyAdds adds).rosterPoints) := by
  have hpicks := Team.applyAdds_picks adds (Team.init i)
  have htotal := Team.applyAdds_total adds (Team.init i)
  have hinit1 : (Team.init i).draft_picks = [] := rfl
  have hinit2 : (Team.init i).total_points = 0 := rfl
  have hinit3 : (Team.init i).rosterPoints = 0 := rfl
  refine ⟨?_, ?_, ?_⟩
  · rw [hpicks, hinit1]
    simp
  · rw [hpicks, htotal, hinit1, hinit2]
    simp [List.map_map]
    rfl
  · intro hplace
    rw [htotal, Team.applyAdds_rosterPoints adds (Team.init i) hplace,
      hinit2, hinit3]

/-- C3 witness: a single placed addition keeps `total_points` equal to the
roster-slot sum. -/
theorem team_add_player_invariant_witness :
    ((Team.init 1).applyAdds [(byePlayer, none)]).draft_picks.length = 1 ∧
    ((Team.init 1).applyAdds [(byePlayer, none)]).total_points
      = ((Team.init 1).applyAdds [(byePlayer, none)]).rosterPoints := by
  refine ⟨(team_add_player_invariant [(byePlayer, none)] 1).1, ?_⟩
  refine (team_add_player_invariant [(byePlayer, none)] 1).2.2 ?_
  intro a ha
  rcases List.mem_singleton.1 ha with rfl
  exact Or.inl (by decide)

/-- C3 counterexample: adding a player whose position is outside the roster
keys (a defense) increases `total_points` but stores the player in no roster
slot, so `total_points` differs from the roster-slot sum. -/
theorem team_total_points_roster_mismatch :
    ((Team.init 1).add_player defensePlayer none).total_points
      ≠ ((Team.init 1).add_player defensePlayer none).rosterPoints ∧
    ((Team.init 1).add_player defensePlayer none).draft_picks.length = 1 := by
  have hro : ((Team.init 1).add_player defensePlayer none).rosterPoints = 0 := by
    simp [Team.add_player, Team.rosterAppend, Team.rosterPoints, defensePlayer,
      rosterKeys, skillPositions, Team.init]
  have hto : ((Team.init 1).add_player defensePlayer none).total_points = 5 := by
    rw [Team.add_player_total_points]
    show (0 : ℚ) + 5 = 5
    norm_num
  constructor
  · rw [hro, hto]
    norm_num
  · rw [Team.add_player_draft_picks]
    rfl

/-- C5: the per-strategy player copy in both constructors omits `bye_week`,
resetting it to 0; a source player with bye week 5 is copied with bye week 0
by both `GreedyDraftAlgorithm.__init__` and `RegretDraftAlgorithm.__init__`,
while every other field is preserved. -/
theorem strategy_copy_drops_bye_week :
    (GreedyDraftAlgorithm.init [byePlayer]).available_players
      = [{ byePlayer with bye_week := 0 }] ∧
    (RegretDraftAlgorithm.init [byePlayer]).all_players
      = [{ byePlayer with bye_week := 0 }] ∧
    byePlayer.bye_week = 5 := by
  refine ⟨by decide, by decide, rfl⟩

/-- C10: `draft_player` is atomic for both algorithms: a `none` result leaves
the instance untouched, and a returned player adds exactly its own
(previously absent) name to the instance's drafted set, the pool unchanged. -/
theorem draft_player_atomic :
    (∀ (a : GreedyDraftAlgorithm) (team : Team),
      ((a.draft_player team).1 = none → (a.draft_player team).2 = a) ∧
      (∀ p, (a.draft_player team).1 = some p →
        p.name ∉ a.drafted_players ∧
        (a.draft_player team).2.drafted_players = p.name :: a.drafted_players ∧
        (a.draft_player team).2.available_players = a.available_players)) ∧
    (∀ (a : RegretDraftAlgorithm) (team : Team) (n : Int),
      ((a.draft_player team n).1 = none → (a.draft_player team n).2 = a) ∧
      (∀ p, (a.draft_player team n).1 = some p →
        p.name ∉ a.drafted_players ∧
        (a.draft_player team n).2.drafted_players = p.name :: a.drafted_players ∧
        (a.draft_player team n).2.all_players = a.all_players ∧
        (a.draft_player team n).2.max_auction = a.max_auction ∧
        (a.draft_player team n).2.position_counts = a.position_counts)) := by
  constructor
  · intro a team
    rcases GreedyDraftAlgorithm.greedy_pick_cases a team with ⟨h1, h2⟩ | ⟨q, h1, hm, hn, h2⟩
    · exact ⟨fun _ => h2, fun p hp => by rw [h1] at hp; cases hp⟩
    · refine ⟨fun hno => (by rw [h1] at hno; cases hno), ?_⟩
      intro p hp
      rw [h1] at hp
      injection hp with hp
      subst hp
      refine ⟨hn, ?_, ?_⟩ <;> rw [h2]
  · intro a team n
    rcases RegretDraftAlgorithm.regret_pick_cases a team n with ⟨h1, h2⟩ | ⟨q, h1, hm, hn, h2⟩
    · exact ⟨fun _ => h2, fun p hp => by rw [h1] at hp; cases hp⟩
    · refine ⟨fun hno => (by rw [h1] at hno; cases hno), ?_⟩
      intro p hp
      rw [h1] at hp
      injection hp with hp
      subst hp
      refine ⟨hn, ?_, ?_, ?_, ?_⟩ <;> rw [h2]

/-- C10 witness: concrete no-pick and successful-pick calls. -/
theorem draft_player_atomic_witness :
    ((GreedyDraftAlgorithm.init pool5).draft_player fullTeam).2
      = GreedyDraftAlgorithm.init pool5 ∧
    ((RegretDraftAlgorithm.init pool5).draft_player fullTeam 11).2
      = RegretDraftAlgorithm.init pool5 := by
  constructor
  · exact (draft_player_atomic.1 (GreedyDraftAlgorithm.init pool5) fullTeam).1 (by decide)
  · exact (draft_player_atomic.2 (RegretDraftAlgorithm.init pool5) fullTeam 11).1 (by decide)

/-! ## Lemmas: the stable insertion sort -/

theorem insertLe_perm {α : Type} (le : α → α → Bool) (x : α) (l : List α) :
    (insertLe le x l).Perm (x :: l) := by
  induction l with
  | nil => exact List.Perm.refl _
  | cons y ys ih =>
    rw [insertLe]
    split_ifs with h
    · exact (ih.cons y).trans (List.Perm.swap x y ys)
    · exact List.Perm.refl _

theorem sortLe_perm {α : Type} (le : α → α → Bool) (l : List α) :
    (sortLe le l).Perm l := by
  induction l with
  | nil => exact List.Perm.refl _
  | cons x xs ih =>
    rw [sortLe]
    exact (insertLe_perm le x (sortLe le xs)).trans (ih.cons x)

theorem mem_sortLe {α : Type} {le : α → α → Bool} {x : α} {l : List α} :
    x ∈ sortLe le l ↔ x ∈ l :=
  (sortLe_perm le l).mem_iff

theorem sortLe_length {α : Type} (le : α → α → Bool) (l : List α) :
    (sortLe le l).length = l.length :=
  (sortLe_perm le l).length_eq

theorem insertLe_pairwise {α : Type} {le : α → α → Bool}
    (htrans : ∀ a b c, le a b = true → le b c = true → le a c = true)
    (htotal : ∀ a b, le a b = true ∨ le b a = true)
    {x : α} {l : List α} (h : l.Pairwise (fun a b => le a b = true)) :
    (insertLe le x l).Pairwise (fun a b => le a b = true) := by
  induction l with
  | nil => simp [insertLe]
  | cons y ys ih =>
    rw [List.pairwise_cons] at h
    rw [insertLe]
    split_ifs with hcond
    · rw [List.pairwise_cons]
      constructor
      · intro z hz
        rcases (insertLe_perm le x ys).mem_iff.1 hz with hz2
        rcases List.mem_cons.1 hz2 with rfl | hz3
        · exact (Bool.and_eq_true _ _ ▸ hcond).1
        · exact h.1 z hz3
      · exact ih h.2
    · rw [List.pairwise_cons]
      constructor
      · intro z hz
        have hxy : le x y = true := by
          rcases htotal x y with hxy | hyx
          · exact hxy
          · by_cases hxy2 : le x y = true
            · exact hxy2
            · exact absurd (by simp [hyx, hxy2]) hcond
        rcases List.mem_cons.1 hz with rfl | hz2
        · exact hxy
        · exact htrans x y z hxy (h.1 z hz2)
      · exact List.pairwise_cons.2 h

theorem sortLe_pairwise {α : Type} {le : α → α → Bool}
    (htrans : ∀ a b c, le a b = true → le b c = true → le a c = true)
    (htotal : ∀ a b, le a b = true ∨ le b a = true) (l : List α) :
    (sortLe le l).Pairwise (fun a b => le a b = true) := by
  induction l with
  | nil => simp [sortLe]
  | cons x xs ih =>
    rw [sortLe]
    exact insertLe_pairwise htrans htotal ih

theorem headD_mem {α : Type} {l : List α} (h : l ≠ []) (d : α) : l.headD d ∈ l := by
  rcases l with _ | ⟨x, xs⟩
  · exact absurd rfl h
  · simp

theorem simTeams_some (a : Team) (l : List Team) :
    simTeams (some (a, l)) = l := rfl

theorem Team.rb_need {t : Team} (h : t.rb = []) : "RB" ∈ t.get_needs := by
  rw [Team.get_needs]
  refine List.mem_map.2 ⟨("RB", 2), ?_, rfl⟩
  refine List.mem_filter.2 ⟨by simp [DRAFT_CONFIG.roster_spots], ?_⟩
  have hrg : t.rosterGet "RB" = t.rb := rfl
  rw [hrg, h]
  simp

/-- C2 (amended): a draft over a pool of exactly `num_teams * total_picks`
players with distinct names completes all `80` picks for either strategy —
every team ends with exactly `total_picks` draft picks and every pool player
ends on some roster — but a team's roster need not be *positionally* complete
(see the counterexample: an all-QB pool leaves `get_needs` nonempty). -/
theorem simulate_draft_all_drafted (players : List Player)
    (hlen : players.length = DRAFT_CONFIG.num_teams * DRAFT_CONFIG.total_picks)
    (hnd : (players.map Player.name).Nodup) :
    (∃ pr : Team × List Team,
      DraftSimulator.simulate_draft greedyStrategy GreedyDraftAlgorithm.init players
        = some pr ∧
      pr.2.length = DRAFT_CONFIG.num_teams ∧
      (∀ t ∈ pr.2, t.draft_picks.length = DRAFT_CONFIG.total_picks) ∧
      (rosterNames pr.2).Perm (players.map Player.name)) ∧
    (∃ pr : Team × List Team,
      DraftSimulator.simulate_draft regretStrategy RegretDraftAlgorithm.init players
        = some pr ∧
      pr.2.length = DRAFT_CONFIG.num_teams ∧
      (∀ t ∈ pr.2, t.draft_picks.length = DRAFT_CONFIG.total_picks) ∧
      (rosterNames pr.2).Perm (players.map Player.name)) := by
  constructor
  · refine DraftSimulator.simulate_draft_total greedyLawful GreedyDraftAlgorithm.init
      players (fun ps => rfl) ?_ hlen hnd
    intro ps
    have h1 : greedyStrategy.pool (GreedyDraftAlgorithm.init ps)
        = sortLe adpLe (ps.map copyPlayerDropBye) := rfl
    rw [h1]
    have h2 := (sortLe_perm adpLe (ps.map copyPlayerDropBye)).map Player.name
    rw [List.map_map] at h2
    have h3 : (Player.name ∘ copyPlayerDropBye) = Player.name := funext (fun p => rfl)
    rw [h3] at h2
    exact h2
  · refine DraftSimulator.simulate_draft_total regretLawful RegretDraftAlgorithm.init
      players (fun ps => rfl) ?_ hlen hnd
    intro ps
    have h1 : regretStrategy.pool (RegretDraftAlgorithm.init ps)
        = ps.map copyPlayerDropBye := rfl
    rw [h1, List.map_map]
    have h3 : (Player.name ∘ copyPlayerDropBye) = Player.name := funext (fun p => rfl)
    rw [h3]

/-- C2 witness: the 80-player all-QB pool runs to 80 successful picks under
the greedy strategy. -/
theorem simulate_draft_all_drafted_witness :
    ∃ pr : Team × List Team,
      DraftSimulator.simulate_draft greedyStrategy GreedyDraftAlgorithm.init poolQB80
        = some pr ∧
      pr.2.length = DRAFT_CONFIG.num_teams ∧
      (∀ t ∈ pr.2, t.draft_picks.length = DRAFT_CONFIG.total_picks) ∧
      (rosterNames pr.2).Perm (poolQB80.map Player.name) :=
  (simulate_draft_all_drafted poolQB80 (by decide) (by decide)).1

/-- C2 counterexample: with the pool of exactly 80 quarterbacks, the first
team's roster is not complete after `simulate_draft` — its RB slot stays empty
so `get_needs` is nonempty, refuting "every team's roster is complete". -/
theorem simulate_draft_incomplete_roster :
    ((simTeams (DraftSimulator.simulate_draft greedyStrategy
        GreedyDraftAlgorithm.init poolQB80)).headD (Team.init 0)).get_needs ≠ [] ∧
    (simTeams (DraftSimulator.simulate_draft greedyStrategy
        GreedyDraftAlgorithm.init poolQB80)).length = DRAFT_CONFIG.num_teams := by
  have hne : ¬ poolQB80.isEmpty = true := by decide
  have hlt : ¬ poolQB80.length < DRAFT_CONFIG.num_teams * DRAFT_CONFIG.total_picks := by
    decide
  have hsim : DraftSimulator.simulate_draft greedyStrategy GreedyDraftAlgorithm.init
      poolQB80 = some
      ((DraftSimulator.runDraft greedyStrategy poolQB80.length
          (DraftSimulator.generate_snake_draft_order DRAFT_CONFIG.num_teams
            DRAFT_CONFIG.total_picks)
          (DraftSimulator.generate_snake_draft_order DRAFT_CONFIG.num_teams
            DRAFT_CONFIG.total_picks)
          0 ((List.range DRAFT_CONFIG.num_teams).map (fun i => Team.init (i + 1)))
          ((List.range DRAFT_CONFIG.num_teams).map
            (fun _ => GreedyDraftAlgorithm.init (poolQB80.map copyPlayerKeepBye)))
          []).1.getD (DRAFT_CONFIG.draft_position - 1) (Team.init 0),
        (DraftSimulator.runDraft greedyStrategy poolQB80.length
          (DraftSimulator.generate_snake_draft_order DRAFT_CONFIG.num_teams
            DRAFT_CONFIG.total_picks)
          (DraftSimulator.generate_snake_draft_order DRAFT_CONFIG.num_teams
            DRAFT_CONFIG.total_picks)
          0 ((List.range DRAFT_CONFIG.num_teams).map (fun i => Team.init (i + 1)))
          ((List.range DRAFT_CONFIG.num_teams).map
            (fun _ => GreedyDraftAlgorithm.init (poolQB80.map copyPlayerKeepBye)))
          []).1) := by
    simp only [DraftSimulator.simulate_draft, if_neg hne, if_neg hlt]
  have hqb0 : ∀ i q, q ∈ greedyStrategy.pool
      ((((List.range DRAFT_CONFIG.num_teams).map
        (fun _ => GreedyDraftAlgorithm.init (poolQB80.map copyPlayerKeepBye)))).getD i
        default) → q.position = "QB" := by
    intro i q hq
    by_cases hi : i < ((List.range DRAFT_CONFIG.num_teams).map
        (fun _ => GreedyDraftAlgorithm.init (poolQB80.map copyPlayerKeepBye))).length
    · rw [List.getD_eq_getElem _ _ hi, List.getElem_map] at hq
      have hq2 : q ∈ sortLe adpLe ((poolQB80.map copyPlayerKeepBye).map copyPlayerDropBye) :=
        hq
      rw [mem_sortLe] at hq2
      rw [List.map_map] at hq2
      rcases List.mem_map.1 hq2 with ⟨src, hsrc, rfl⟩
      have hall : ∀ p ∈ poolQB80, p.position = "QB" := by decide
      exact hall src hsrc
    · rw [List.getD_eq_default _ _ (by omega)] at hq
      have hdef : greedyStrategy.pool (default : GreedyDraftAlgorithm) = [] := rfl
      rw [hdef] at hq
      cases hq
  have hrb0 : ∀ t ∈ (List.range DRAFT_CONFIG.num_teams).map (fun i => Team.init (i + 1)),
      t.rb = [] := by
    intro t ht
    rcases List.mem_map.1 ht with ⟨i, _, rfl⟩
    rfl
  have hmain := DraftSimulator.runDraft_rb_empty greedyLawful poolQB80.length
    (DraftSimulator.generate_snake_draft_order DRAFT_CONFIG.num_teams
      DRAFT_CONFIG.total_picks)
    (DraftSimulator.generate_snake_draft_order DRAFT_CONFIG.num_teams
      DRAFT_CONFIG.total_picks)
    0 ((List.range DRAFT_CONFIG.num_teams).map (fun i => Team.init (i + 1)))
    ((List.range DRAFT_CONFIG.num_teams).map
      (fun _ => GreedyDraftAlgorithm.init (poolQB80.map copyPlayerKeepBye)))
    [] hqb0 hrb0
  rcases hmain with ⟨hall, hlen2⟩
  have hlen3 : ((List.range DRAFT_CONFIG.num_teams).map
      (fun i => Team.init (i + 1))).length = DRAFT_CONFIG.num_teams := by simp
  rw [hlen3] at hlen2
  have hLne : (DraftSimulator.runDraft greedyStrategy poolQB80.length
      (DraftSimulator.generate_snake_draft_order DRAFT_CONFIG.num_teams
        DRAFT_CONFIG.total_picks)
      (DraftSimulator.generate_snake_draft_order DRAFT_CONFIG.num_teams
        DRAFT_CONFIG.total_picks)
      0 ((List.range DRAFT_CONFIG.num_teams).map (fun i => Team.init (i + 1)))
      ((List.range DRAFT_CONFIG.num_teams).map
        (fun _ => GreedyDraftAlgorithm.init (poolQB80.map copyPlayerKeepBye)))
      []).1 ≠ [] := by
    intro h0
    rw [h0] at hlen2
    exact absurd hlen2 (by decide)
  have hneed := Team.rb_need (hall _ (headD_mem hLne (Team.init 0)))
  constructor
  · rw [hsim, simTeams_some]
    exact List.ne_nil_of_mem hneed
  · rw [hsim, simTeams_some]
    exact hlen2

/-- C1 (amended): when a strategy's `draft_player` returns a player whose
name the engine's global set already holds, `_execute_draft_pick` discards
the pick — it returns `none`, so no roster entry (duplicate or otherwise) is
emitted for it — but the engine does **not** retry the pick-slot: on an empty
pick the loop either terminates (when at least 90 percent of the pool is
drafted) or moves on to the next slot with every roster and the global set
unchanged. -/
theorem conflict_pick_discarded {σ : Type} [Inhabited σ] (S : Strategy σ)
    (s1 : σ) (team : Team) (n : Int) (g : List String) (p : Player)
    (hdraft : (S.draft s1 team n).1 = some p) (hmem : p.name ∈ g) :
    DraftSimulator.syncedPick S s1 team n g = (none, (S.draft s1 team n).2) ∧
    (∀ (poolLen : Nat) (ord rest : List Nat) (tid pick_num : Nat)
        (teams : List Team) (algs : List σ),
      (DraftSimulator.execute_draft_pick S (algs.getD (tid - 1) default)
          (teams.getD (tid - 1) (Team.init 0))
          (DraftSimulator.calculate_picks_until_next pick_num tid ord) g).1 = none →
      DraftSimulator.runDraft S poolLen ord (tid :: rest) pick_num teams algs g
        = if (g.length : ℚ) ≥ (poolLen : ℚ) * (9 / 10)
          then (teams, algs.set (tid - 1)
            (DraftSimulator.execute_draft_pick S (algs.getD (tid - 1) default)
              (teams.getD (tid - 1) (Team.init 0))
              (DraftSimulator.calculate_picks_until_next pick_num tid ord) g).2, g)
          else DraftSimulator.runDraft S poolLen ord rest (pick_num + 1) teams
            (algs.set (tid - 1)
              (DraftSimulator.execute_draft_pick S (algs.getD (tid - 1) default)
                (teams.getD (tid - 1) (Team.init 0))
                (DraftSimulator.calculate_picks_until_next pick_num tid ord) g).2)
            g) := by
  constructor
  · have hcont : g.contains p.name = true := by simpa using hmem
    exact DraftSimulator.syncedPick_conflict S hdraft hcont
  · intro poolLen ord rest tid pick_num teams algs hexec
    simp only [DraftSimulator.runDraft]
    simp only [hexec]

/-- C1 witness: the conflicting strategy's pick is discarded when its player's
name is already in the global set. -/
theorem conflict_pick_discarded_witness :
    DraftSimulator.syncedPick conflictStrategy () (Team.init 2) 11 [shortName 0]
      = (none, ()) :=
  (conflict_pick_discarded conflictStrategy () (Team.init 2) 11 [shortName 0]
    conflictPlayer rfl (by decide)).1

/-- Once the global set holds the conflicting strategy's player, every
remaining slot is skipped without any roster change (the 90 percent cutoff is
not reached for the ten-player pool). -/
theorem conflict_loop (ord : List Nat) :
    ∀ (rest : List Nat) (n : Nat) (teams : List Team) (algs : List Unit),
      (DraftSimulator.runDraft conflictStrategy poolRB10.length ord rest n teams algs
        [shortName 0]).1 = teams := by
  intro rest
  induction rest with
  | nil =>
    intro n teams algs
    rfl
  | cons tid rest ih =>
    intro n teams algs
    have hexec : ∀ (s : Unit) (team : Team) (m : Int),
        (DraftSimulator.execute_draft_pick conflictStrategy s team m [shortName 0]).1
          = none := fun s team m => rfl
    have hcond : ¬ ((([shortName 0] : List String).length : ℚ)
        ≥ ((poolRB10.length : Nat) : ℚ) * (9 / 10)) := by
      have h1 : ([shortName 0] : List String).length = 1 := rfl
      have h2 : poolRB10.length = 10 := by decide
      rw [h1, h2]
      norm_num
    simp only [DraftSimulator.runDraft]
    simp only [hexec]
    rw [if_neg hcond]
    exact ih (n + 1) teams _

/-- One unfolding step of the pick loop on a nonempty order (stated once so
proofs can step a concrete order without recursive unfolding). -/
theorem runDraft_cons_eq {σ : Type} [Inhabited σ] (S : Strategy σ) (poolLen : Nat)
    (ord : List Nat) (tid : Nat) (rest : List Nat) (pick_num : Nat)
    (teams : List Team) (algs : List σ) (globally : List String) :
    DraftSimulator.runDraft S poolLen ord (tid :: rest) pick_num teams algs globally
      = match (DraftSimulator.execute_draft_pick S (algs.getD (tid - 1) default)
          (teams.getD (tid - 1) (Team.init 0))
          (DraftSimulator.calculate_picks_until_next pick_num tid ord) globally).1 with
        | some p =>
          DraftSimulator.runDraft S poolLen ord rest (pick_num + 1)
            (teams.set (tid - 1)
              ((teams.getD (tid - 1) (Team.init 0)).add_player p
                (some (DraftSimulator.determine_roster_position p
                  (teams.getD (tid - 1) (Team.init 0))))))
            (DraftSimulator.update_all_algorithms S
              (algs.set (tid - 1)
                (DraftSimulator.execute_draft_pick S (algs.getD (tid - 1) default)
                  (teams.getD (tid - 1) (Team.init 0))
                  (DraftSimulator.calculate_picks_until_next pick_num tid ord)
                  globally).2)
              p.name)
            (setAdd globally p.name)
        | none =>
          if (globally.length : ℚ) ≥ (poolLen : ℚ) * (9 / 10)
          then (teams, algs.set (tid - 1)
            (DraftSimulator.execute_draft_pick S (algs.getD (tid - 1) default)
              (teams.getD (tid - 1) (Team.init 0))
              (DraftSimulator.calculate_picks_until_next pick_num tid ord)
              globally).2, globally)
          else DraftSimulator.runDraft S poolLen ord rest (pick_num + 1) teams
            (algs.set (tid - 1)
              (DraftSimulator.execute_draft_pick S (algs.getD (tid - 1) default)
                (teams.getD (tid - 1) (Team.init 0))
                (DraftSimulator.calculate_picks_until_next pick_num tid ord)
                globally).2)
            globally := rfl

/-- C1 counterexample: a strategy that keeps returning an already-drafted
player (the propagation-was-skipped scenario).  Team 1 drafts the player;
team 2's slot then yields the conflicting pick, which the engine discards and
never re-attempts: team 2 finishes the draft with an empty roster and open
needs although nine pool players were never drafted — refuting "retries the
pick-slot with the fallback policy / re-attempted rather than silently
dropped". -/
theorem conflict_pick_not_retried :
    ((simTeams (DraftSimulator.simulate_draft conflictStrategy (fun _ => ())
        poolRB10)).getD 1 (Team.init 0)).draft_picks = [] ∧
    ((simTeams (DraftSimulator.simulate_draft conflictStrategy (fun _ => ())
        poolRB10)).getD 1 (Team.init 0)).get_needs ≠ [] ∧
    ((simTeams (DraftSimulator.simulate_draft conflictStrategy (fun _ => ())
        poolRB10)).getD 0 (Team.init 0)).draft_picks.length = 1 ∧
    (simTeams (DraftSimulator.simulate_draft conflictStrategy (fun _ => ())
        poolRB10)).length = DRAFT_CONFIG.num_teams := by
  have hne : ¬ poolRB10.isEmpty = true := by decide
  have hlt : poolRB10.length < DRAFT_CONFIG.num_teams * DRAFT_CONFIG.total_picks := by
    decide
  have hord : DraftSimulator.generate_snake_draft_order DRAFT_CONFIG.num_teams
      (min DRAFT_CONFIG.total_picks (max 1 (poolRB10.length / DRAFT_CONFIG.num_teams)))
      = [1, 2, 3, 4, 5, 6, 7, 8, 9, 10] := by decide
  have hsim : DraftSimulator.simulate_draft conflictStrategy (fun _ => ()) poolRB10
      = some ((DraftSimulator.runDraft conflictStrategy poolRB10.length
          (DraftSimulator.generate_snake_draft_order DRAFT_CONFIG.num_teams
            (min DRAFT_CONFIG.total_picks
              (max 1 (poolRB10.length / DRAFT_CONFIG.num_teams))))
          (DraftSimulator.generate_snake_draft_order DRAFT_CONFIG.num_teams
            (min DRAFT_CONFIG.total_picks
              (max 1 (poolRB10.length / DRAFT_CONFIG.num_teams))))
          0 ((List.range DRAFT_CONFIG.num_teams).map (fun i => Team.init (i + 1)))
          ((List.range DRAFT_CONFIG.num_teams).map (fun _ => ()))
          []).1.getD (DRAFT_CONFIG.draft_position - 1) (Team.init 0),
        (DraftSimulator.runDraft conflictStrategy poolRB10.length
          (DraftSimulator.generate_snake_draft_order DRAFT_CONFIG.num_teams
            (min DRAFT_CONFIG.total_picks
              (max 1 (poolRB10.length / DRAFT_CONFIG.num_teams))))
          (DraftSimulator.generate_snake_draft_order DRAFT_CONFIG.num_teams
            (min DRAFT_CONFIG.total_picks
              (max 1 (poolRB10.length / DRAFT_CONFIG.num_teams))))
          0 ((List.range DRAFT_CONFIG.num_teams).map (fun i => Team.init (i + 1)))
          ((List.range DRAFT_CONFIG.num_teams).map (fun _ => ()))
          []).1) := by
    simp only [DraftSimulator.simulate_draft, if_neg hne, if_pos hlt]
  rw [hord] at hsim
  have hex0 : ∀ (s : Unit) (team : Team) (m : Int),
      DraftSimulator.execute_draft_pick conflictStrategy s team m []
        = (some conflictPlayer, ()) := fun s team m => rfl
  have hrun : (DraftSimulator.runDraft conflictStrategy poolRB10.length
      [1, 2, 3, 4, 5, 6, 7, 8, 9, 10] [1, 2, 3, 4, 5, 6, 7, 8, 9, 10] 0
      ((List.range DRAFT_CONFIG.num_teams).map (fun i => Team.init (i + 1)))
      ((List.range DRAFT_CONFIG.num_teams).map (fun _ => ()))
      []).1
      = (((List.range DRAFT_CONFIG.num_teams).map (fun i => Team.init (i + 1))).set 0
          ((((List.range DRAFT_CONFIG.num_teams).map
              (fun i => Team.init (i + 1))).getD 0 (Team.init 0)).add_player
            conflictPlayer
            (some (DraftSimulator.determine_roster_position conflictPlayer
              (((List.range DRAFT_CONFIG.num_teams).map
                (fun i => Team.init (i + 1))).getD 0 (Team.init 0)))))) := by
    rw [runDraft_cons_eq, hex0]
    dsimp only
    exact conflict_loop [1, 2, 3, 4, 5, 6, 7, 8, 9, 10] [2, 3, 4, 5, 6, 7, 8, 9, 10] 1 _ _
  have hT1 : (((List.range DRAFT_CONFIG.num_teams).map
      (fun i => Team.init (i + 1))).getD 1 (Team.init 0)) = Team.init 2 := by decide
  have hT0 : (((List.range DRAFT_CONFIG.num_teams).map
      (fun i => Team.init (i + 1))).getD 0 (Team.init 0)) = Team.init 1 := by decide
  have hlen10 : (((List.range DRAFT_CONFIG.num_teams).map
      (fun i => Team.init (i + 1)))).length = DRAFT_CONFIG.num_teams := by simp
  refine ⟨?_, ?_, ?_, ?_⟩
  · rw [hsim, simTeams_some, hrun, getDSetNe (by omega), hT1]
    rfl
  · rw [hsim, simTeams_some, hrun, getDSetNe (by omega), hT1]
    decide
  · rw [hsim, simTeams_some, hrun,
      getDSetEq (by rw [hlen10]; decide) _ (Team.init 0),
      Team.add_player_draft_picks, hT0]
    rfl
  · rw [hsim, simTeams_some, hrun, List.length_set]
    exact hlen10

theorem adpLe_trans : ∀ a b c : Player,
    adpLe a b = true → adpLe b c = true → adpLe a c = true := by
  intro a b c h1 h2
  simp [adpLe] at *
  omega

theorem adpLe_total : ∀ a b : Player, adpLe a b = true ∨ adpLe b a = true := by
  intro a b
  simp [adpLe]
  omega

/-- C7: greedy `draft_player` returns the first undrafted player of the
ADP-sorted pool fitting a direct or FLEX need, else the first undrafted
player regardless of position; over a pool whose ADP ranks are a permutation
of `[1,2,3,4,5]` (positions among the roster keys) a fresh team's first pick
has ADP rank 1. -/
theorem greedy_draft_order_claim :
    (∀ (players : List Player) (d : List String) (team : Team),
      team.get_needs ≠ [] →
      (({ available_players := (GreedyDraftAlgorithm.init players).available_players,
          drafted_players := d } : GreedyDraftAlgorithm).draft_player team).1
        = Option.or
            (greedyNeedMatchSpec d team.get_needs
              (GreedyDraftAlgorithm.init players).available_players)
            (firstUndraftedSpec d
              (GreedyDraftAlgorithm.init players).available_players)) ∧
    (∀ (players : List Player) (i : Nat),
      (players.map Player.adp_rank).Perm [1, 2, 3, 4, 5] →
      (∀ p ∈ players, p.position ∈ rosterKeys) →
      ∃ p, ((GreedyDraftAlgorithm.init players).draft_player (Team.init i)).1 = some p
        ∧ p.adp_rank = 1) := by
  constructor
  · intro players d team hneeds
    have h1 : ¬ team.get_needs.isEmpty = true := by
      simpa [List.isEmpty_iff] using hneeds
    rcases hs : GreedyDraftAlgorithm.scanNeeds d team.get_needs
        (GreedyDraftAlgorithm.init players).available_players with _ | p
    · have hspec : greedyNeedMatchSpec d team.get_needs
          (GreedyDraftAlgorithm.init players).available_players = none := by
        rw [← GreedyDraftAlgorithm.scanNeeds_eq_spec]
        exact hs
      rcases hf : (GreedyDraftAlgorithm.init players).available_players.find?
          (fun q => !(d.contains q.name)) with _ | p
      · have hfu : firstUndraftedSpec d
            (GreedyDraftAlgorithm.init players).available_players = none := hf
        rw [hspec, hfu]
        simp only [GreedyDraftAlgorithm.draft_player, if_neg h1, hs, hf]
        rfl
      · have hfu : firstUndraftedSpec d
            (GreedyDraftAlgorithm.init players).available_players = some p := hf
        rw [hspec, hfu]
        simp only [GreedyDraftAlgorithm.draft_player, if_neg h1, hs, hf]
        rfl
    · have hspec : greedyNeedMatchSpec d team.get_needs
          (GreedyDraftAlgorithm.init players).available_players = some p := by
        rw [← GreedyDraftAlgorithm.scanNeeds_eq_spec]
        exact hs
      rw [hspec]
      simp only [GreedyDraftAlgorithm.draft_player, if_neg h1, hs]
      rfl
  · intro players i hperm hpos
    have hlen5 : players.length = 5 := by
      have hl := hperm.length_eq
      simpa using hl
    have hAperm : (sortLe adpLe (players.map copyPlayerDropBye)).Perm
        (players.map copyPlayerDropBye) := sortLe_perm _ _
    have hAlen : (sortLe adpLe (players.map copyPlayerDropBye)).length = 5 := by
      rw [hAperm.length_eq]
      simpa using hlen5
    rcases hAc : sortLe adpLe (players.map copyPlayerDropBye) with _ | ⟨h0, rest⟩
    · rw [hAc] at hAlen
      simp at hAlen
    · have hh0mem : h0 ∈ players.map copyPlayerDropBye :=
        hAperm.mem_iff.1 (by rw [hAc]; simp)
      rcases List.mem_map.1 hh0mem with ⟨src, hsrc, rfl⟩
      have hpos0 : (copyPlayerDropBye src).position ∈ rosterKeys := hpos src hsrc
      have hneeds : (Team.init i).get_needs = rosterKeys := Team.get_needs_init i
      have hscan : GreedyDraftAlgorithm.scanNeeds [] (Team.init i).get_needs
          (copyPlayerDropBye src :: rest) = some (copyPlayerDropBye src) := by
        rw [GreedyDraftAlgorithm.scanNeeds, hneeds]
        rw [if_neg (by simp), if_pos (by simpa using hpos0)]
      have hne2 : ¬ (Team.init i).get_needs.isEmpty = true := by
        rw [hneeds]
        decide
      have hd : ((GreedyDraftAlgorithm.init players).draft_player (Team.init i)).1
          = some (copyPlayerDropBye src) := by
        simp only [GreedyDraftAlgorithm.draft_player, if_neg hne2,
          GreedyDraftAlgorithm.init, hAc, hscan]
      have hsorted := sortLe_pairwise adpLe_trans adpLe_total
        (players.map copyPlayerDropBye)
      rw [hAc, List.pairwise_cons] at hsorted
      have hadps : ((copyPlayerDropBye src).adp_rank :: rest.map Player.adp_rank).Perm
          [1, 2, 3, 4, 5] := by
        have hm := (sortLe_perm adpLe (players.map copyPlayerDropBye)).map Player.adp_rank
        rw [hAc] at hm
        rw [List.map_map] at hm
        have hcomp : (Player.adp_rank ∘ copyPlayerDropBye) = Player.adp_rank :=
          funext (fun p => rfl)
        rw [hcomp] at hm
        have hm2 : ((copyPlayerDropBye src).adp_rank :: rest.map Player.adp_rank).Perm
            (players.map Player.adp_rank) := by simpa using hm
        exact hm2.trans hperm
      have h1mem : (1 : Int) ∈ (copyPlayerDropBye src).adp_rank
          :: rest.map Player.adp_rank := hadps.mem_iff.2 (by simp)
      have hge1 : (1 : Int) ≤ (copyPlayerDropBye src).adp_rank := by
        have hx : (copyPlayerDropBye src).adp_rank ∈ ([1, 2, 3, 4, 5] : List Int) :=
          hadps.mem_iff.1 (by simp)
        simp at hx
        omega
      have hle1 : (copyPlayerDropBye src).adp_rank ≤ 1 := by
        rcases List.mem_cons.1 h1mem with h | h
        · omega
        · rcases List.mem_map.1 h with ⟨q, hq, hq2⟩
          have hrel := hsorted.1 q hq
          simp [adpLe] at hrel
          omega
      exact ⟨copyPlayerDropBye src, hd, by omega⟩

/-- C7 witness: the scrambled five-player pool with ADP ranks 1..5 yields a
rank-1 first pick for a fresh team. -/
theorem greedy_draft_order_claim_witness :
    ∃ p, ((GreedyDraftAlgorithm.init pool5).draft_player (Team.init 1)).1 = some p
      ∧ p.adp_rank = 1 :=
  greedy_draft_order_claim.2 pool5 1 (by decide) (by decide)

/-- C9: the regret pick is the candidate with the maximum regret score, ties
broken by the earliest position in the candidate list (which preserves the
pool order) — i.e. the first candidate whose score attains the maximum. -/
theorem regret_pick_max_claim :
    ∀ (a : RegretDraftAlgorithm) (team : Team) (n : Int),
      team.get_needs ≠ [] → a.get_available_players ≠ [] →
      (a.draft_player team n).1
        = (firstMaxCandidate (a.candidateList team n)).map Prod.snd := by
  intro a team n hneeds hav
  have h1 : ¬ team.get_needs.isEmpty = true := by
    simpa [List.isEmpty_iff] using hneeds
  have h2 : ¬ a.get_available_players.isEmpty = true := by
    simpa [List.isEmpty_iff] using hav
  have hcand : a.candidateList team n ≠ [] :=
    RegretDraftAlgorithm.candidateList_ne_nil hav
  have h3 : ¬ (a.candidateList team n).isEmpty = true := by
    simpa [List.isEmpty_iff] using hcand
  rcases hsort : sortByScoreDesc (a.candidateList team n) with _ | ⟨best, t⟩
  · exact absurd (sortByScoreDesc_eq_nil_iff.1 hsort) hcand
  · have hfm := sortByScoreDesc_head hsort
    simp only [RegretDraftAlgorithm.draft_player, if_neg h1, if_neg h2, if_neg h3, hsort]
    rw [hfm]
    rfl

/-- C9 witness: the regret pick over the five-player pool for a fresh team is
the first maximal-score candidate. -/
theorem regret_pick_max_claim_witness :
    ((RegretDraftAlgorithm.init pool5).draft_player (Team.init 1) 11).1
      = (firstMaxCandidate ((RegretDraftAlgorithm.init pool5).candidateList
          (Team.init 1) 11)).map Prod.snd :=
  regret_pick_max_claim (RegretDraftAlgorithm.init pool5) (Team.init 1) 11
    (by decide) (by decide)

theorem RegretDraftAlgorithm.scarcity_bounds (a : RegretDraftAlgorithm)
    (position : String) :
    0 ≤ a.calculate_positional_scarcity position ∧
    a.calculate_positional_scarcity position ≤ 1 := by
  simp only [RegretDraftAlgorithm.calculate_positional_scarcity]
  split_ifs with h1 h2 h3
  · norm_num
  · norm_num
  · norm_num
  · constructor
    · refine le_min (by norm_num) ?_
      refine le_trans (by norm_num : (0:ℚ) ≤ 1/10) (le_max_left _ _)
    · exact min_le_left _ _

theorem RegretDraftAlgorithm.dropoff_bounds (a : RegretDraftAlgorithm)
    (position : String) :
    0 ≤ a.calculate_value_dropoff position ∧
    a.calculate_value_dropoff position ≤ 1 := by
  simp only [RegretDraftAlgorithm.calculate_value_dropoff]
  split_ifs with h1 h2
  · norm_num
  · norm_num
  · push_neg at h2
    constructor
    · refine le_min (by norm_num) ?_
      refine div_nonneg ?_ ?_
      · exact_mod_cast le_max_left 0 _
      · exact_mod_cast le_of_lt h2
    · exact min_le_left _ _

theorem RegretDraftAlgorithm.urgency_bounds (n : Int) :
    0 ≤ RegretDraftAlgorithm.calculate_pick_urgency n ∧
    RegretDraftAlgorithm.calculate_pick_urgency n ≤ 1 := by
  rw [RegretDraftAlgorithm.calculate_pick_urgency]
  have hlo : (1 : Int) ≤ min 19 (max 1 n) :=
    le_min (by norm_num) (le_max_left _ _)
  have hhi : min 19 (max 1 n) ≤ 19 := min_le_left _ _
  constructor
  · refine div_nonneg ?_ (by norm_num)
    have : (0 : Int) ≤ min 19 (max 1 n) := le_trans (by norm_num) hlo
    exact_mod_cast this
  · rw [div_le_one (by norm_num : (0:ℚ) < 19)]
    exact_mod_cast hhi

/-- C4: the regret score equals the spec's weighted formula (with the
bye-week penalty of 0.05 exactly when the candidate's bye week matches a
rostered player's), and lies in `[0, 1]`; stated for any instance state whose
cached `max_auction` is the cache built by the constructor, over a pool of
nonnegative auction values. -/
theorem regret_score_formula_claim (a : RegretDraftAlgorithm) (player : Player)
    (team : Team) (n : Int)
    (hmax : a.max_auction = (a.all_players.map Player.auction_value).max?.getD 1)
    (hp : player ∈ a.all_players)
    (hv : ∀ q ∈ a.all_players, 0 ≤ q.auction_value) :
    a.calculate_regret_score player team n = regretScoreSpec a player team n ∧
    0 ≤ a.calculate_regret_score player team n ∧
    a.calculate_regret_score player team n ≤ 1 := by
  have hvle0 : player.auction_value ≤ a.max_auction := by
    rw [hmax]
    exact le_max?_getD (List.mem_map_of_mem Player.auction_value hp) 1
  have hvle : (player.auction_value : ℚ) ≤ (a.max_auction : ℚ) := by
    exact_mod_cast hvle0
  have hmax0i : (0 : Int) ≤ a.max_auction := le_trans (hv player hp) hvle0
  have hmax0 : (0 : ℚ) ≤ (a.max_auction : ℚ) := by exact_mod_cast hmax0i
  obtain ⟨hs0, hs1⟩ := RegretDraftAlgorithm.scarcity_bounds a player.position
  obtain ⟨hd0, hd1⟩ := RegretDraftAlgorithm.dropoff_bounds a player.position
  obtain ⟨hu0, hu1⟩ := RegretDraftAlgorithm.urgency_bounds n
  have hvs0 : (0:ℚ) ≤ (if 0 < a.max_auction
      then (player.auction_value : ℚ) / (a.max_auction : ℚ) else 0) := by
    split_ifs with h
    · refine div_nonneg ?_ hmax0
      exact_mod_cast hv player hp
    · norm_num
  have hvs : (if 0 < a.max_auction
      then (player.auction_value : ℚ) / (a.max_auction : ℚ) else 0) ≤ 1 := by
    split_ifs with h
    · rw [div_le_one (by exact_mod_cast h)]
      exact hvle
    · norm_num
  have hbp0 : (0:ℚ) ≤ (if player.bye_week ∈ team.byeWeeks then (5:ℚ)/100 else 0) := by
    split_ifs <;> norm_num
  refine ⟨?_, ?_, ?_⟩
  · simp only [RegretDraftAlgorithm.calculate_regret_score, regretScoreSpec]
    by_cases h : 0 < a.max_auction
    · rw [if_pos h]
      congr 1
      ring
    · rw [if_neg h]
      have hz : a.max_auction = 0 := le_antisymm (not_lt.1 h) hmax0i
      rw [hz, Int.cast_zero, div_zero]
      congr 1
      ring
  · simp only [RegretDraftAlgorithm.calculate_regret_score]
    exact le_max_left _ _
  · simp only [RegretDraftAlgorithm.calculate_regret_score]
    refine max_le (by norm_num) ?_
    have hsd : a.calculate_positional_scarcity player.position
        * a.calculate_value_dropoff player.position ≤ 1 :=
      mul_le_one₀ hs1 hd0 hd1
    have hsd0 : (0:ℚ) ≤ a.calculate_positional_scarcity player.position
        * a.calculate_value_dropoff player.position :=
      mul_nonneg hs0 hd0
    have e1 : (if 0 < a.max_auction
        then (player.auction_value : ℚ) / (a.max_auction : ℚ) else 0) * (3/10)
        ≤ 3/10 :=
      mul_le_of_le_one_left (by norm_num) hvs
    have e2 : a.calculate_positional_scarcity player.position
        * a.calculate_value_dropoff player.position * (4/10) ≤ 4/10 :=
      mul_le_of_le_one_left (by norm_num) hsd
    have e3 : RegretDraftAlgorithm.calculate_pick_urgency n * (3/10) ≤ 3/10 :=
      mul_le_of_le_one_left (by norm_num) hu1
    linarith [e1, e2, e3, hbp0]

/-- C4 witness: a concrete instance over the five-player pool. -/
theorem regret_score_formula_claim_witness :
    (RegretDraftAlgorithm.init pool5).calculate_regret_score
        (copyPlayerDropBye (pool5.getD 0 byePlayer)) (Team.init 1) 11
      = regretScoreSpec (RegretDraftAlgorithm.init pool5)
        (copyPlayerDropBye (pool5.getD 0 byePlayer)) (Team.init 1) 11 ∧
    0 ≤ (RegretDraftAlgorithm.init pool5).calculate_regret_score
        (copyPlayerDropBye (pool5.getD 0 byePlayer)) (Team.init 1) 11 ∧
    (RegretDraftAlgorithm.init pool5).calculate_regret_score
        (copyPlayerDropBye (pool5.getD 0 byePlayer)) (Team.init 1) 11 ≤ 1 :=
  regret_score_formula_claim (RegretDraftAlgorithm.init pool5)
    (copyPlayerDropBye (pool5.getD 0 byePlayer)) (Team.init 1) 11
    rfl (by decide) (by decide)

theorem intLe_trans : ∀ a b c : Int,
    intLe a b = true → intLe b c = true → intLe a c = true := by
  intro a b c h1 h2
  simp [intLe] at *
  omega

theorem intLe_total : ∀ a b : Int, intLe a b = true ∨ intLe b a = true := by
  intro a b
  simp [intLe]
  omega

theorem sorted_getD_mono {s : List Int}
    (hp : s.Pairwise (fun a b => intLe a b = true)) {i j : Nat}
    (hij : i ≤ j) (hj : j < s.length) : s.getD i 0 ≤ s.getD j 0 := by
  rcases Nat.eq_or_lt_of_le hij with rfl | hlt
  · exact le_refl _
  · have hi : i < s.length := lt_trans hlt hj
    rw [List.getD_eq_getElem _ _ hi, List.getD_eq_getElem _ _ hj]
    have hrel := List.pairwise_iff_get.1 hp ⟨i, hi⟩ ⟨j, hj⟩ hlt
    simp only [List.get_eq_getElem] at hrel
    simpa [intLe] using hrel

/-- The linearly interpolated 75th percentile never exceeds some value of the
list (its maximum). -/
theorem percentile75_le_max {values : List Int} (hlen : 2 ≤ values.length) :
    ∃ m ∈ values, percentile75 values ≤ (m : ℚ) := by
  have hslen : (sortLe intLe values).length = values.length := sortLe_length _ _
  have hne : ¬ (sortLe intLe values).length = 0 := by omega
  have hsorted := sortLe_pairwise intLe_trans intLe_total values
  have hlast : (sortLe intLe values).getD ((sortLe intLe values).length - 1) 0
      ∈ values := by
    rw [← mem_sortLe]
    exact getDMem (by omega) 0
  refine ⟨_, hlast, ?_⟩
  rw [percentile75]
  simp only [if_neg hne]
  have hlo1 : 3 * ((sortLe intLe values).length - 1) / 4
      ≤ (sortLe intLe values).length - 1 := by omega
  have hlo2 : 3 * ((sortLe intLe values).length - 1) / 4 + 1
      ≤ (sortLe intLe values).length - 1 := by omega
  have h1 : (sortLe intLe values).getD
      (3 * ((sortLe intLe values).length - 1) / 4) 0
      ≤ (sortLe intLe values).getD ((sortLe intLe values).length - 1) 0 :=
    sorted_getD_mono hsorted hlo1 (by omega)
  have h2 : (sortLe intLe values).getD
      (3 * ((sortLe intLe values).length - 1) / 4 + 1) 0
      ≤ (sortLe intLe values).getD ((sortLe intLe values).length - 1) 0 :=
    sorted_getD_mono hsorted hlo2 (by omega)
  have h1q : ((sortLe intLe values).getD
      (3 * ((sortLe intLe values).length - 1) / 4) 0 : ℚ)
      ≤ ((sortLe intLe values).getD ((sortLe intLe values).length - 1) 0 : ℚ) := by
    exact_mod_cast h1
  have h2q : ((sortLe intLe values).getD
      (3 * ((sortLe intLe values).length - 1) / 4 + 1) 0 : ℚ)
      ≤ ((sortLe intLe values).getD ((sortLe intLe values).length - 1) 0 : ℚ) := by
    exact_mod_cast h2
  have hr0 : (0:ℚ) ≤ ((3 * ((sortLe intLe values).length - 1) % 4 : Nat) : ℚ) / 4 := by
    positivity
  have hr1 : ((3 * ((sortLe intLe values).length - 1) % 4 : Nat) : ℚ) / 4 ≤ 1 := by
    rw [div_le_one (by norm_num : (0:ℚ) < 4)]
    have hm4 : (3 * ((sortLe intLe values).length - 1) % 4 : Nat) ≤ 3 := by omega
    exact_mod_cast le_trans hm4 (by norm_num)
  nlinarith [h1q, h2q, hr0, hr1]

/-- With at least two undrafted players at the position, at least one auction
value is at or above the 75th percentile. -/
theorem qualityCount_pos (a : RegretDraftAlgorithm) (position : String)
    (h : 2 ≤ (a.availableAtPosition position).length) :
    1 ≤ a.qualityCount position := by
  have hvl : 2 ≤ ((a.availableAtPosition position).map Player.auction_value).length := by
    rw [List.length_map]
    exact h
  obtain ⟨m, hm, hle⟩ := percentile75_le_max hvl
  rw [RegretDraftAlgorithm.qualityCount]
  refine List.length_pos.2 (List.ne_nil_of_mem (List.mem_filter.2 ⟨hm, ?_⟩))
  simpa using hle

theorem clamp_arith {q : ℚ} (h1 : 1 ≤ q) :
    min 1 (max (1/10) (1 / max 1 q)) = max (1/10) (min 1 (1/q)) := by
  rw [max_eq_right h1]
  have h0 : (0:ℚ) < q := lt_of_lt_of_le one_pos h1
  have hle : 1/q ≤ 1 := by
    rw [div_le_one h0]
    exact h1
  rw [min_eq_right (max_le (by norm_num) hle), min_eq_right hle]

/-- C6: positional scarcity is 0 with no undrafted player at the position,
1 with exactly one, and otherwise `clamp(1/quality_players, 0.1, 1.0)` with
quality players counted at or above the 75th percentile; the result always
lies in `{0} ∪ [0.1, 1]`. -/
theorem scarcity_claim (a : RegretDraftAlgorithm) (position : String) :
    ((a.availableAtPosition position).length = 0 →
      a.calculate_positional_scarcity position = 0) ∧
    ((a.availableAtPosition position).length = 1 →
      a.calculate_positional_scarcity position = 1) ∧
    (2 ≤ (a.availableAtPosition position).length →
      a.calculate_positional_scarcity position
        = clampQ (1/10) 1 (1 / (a.qualityCount position : ℚ))) ∧
    (a.calculate_positional_scarcity position = 0 ∨
      (1/10 ≤ a.calculate_positional_scarcity position ∧
        a.calculate_positional_scarcity position ≤ 1)) := by
  refine ⟨?_, ?_, ?_, ?_⟩
  · intro h
    simp only [RegretDraftAlgorithm.calculate_positional_scarcity, if_pos h]
  · intro h
    simp only [RegretDraftAlgorithm.calculate_positional_scarcity]
    rw [if_neg (by omega), if_pos h]
  · intro h
    have hQ := qualityCount_pos a position h
    have hQq : (1:ℚ) ≤ (a.qualityCount position : ℚ) := by exact_mod_cast hQ
    simp only [RegretDraftAlgorithm.calculate_positional_scarcity,
      RegretDraftAlgorithm.qualityCount, clampQ]
    rw [if_neg (by omega), if_neg (by omega),
      if_neg (by simp only [List.length_map]; omega)]
    exact clamp_arith hQq
  · simp only [RegretDraftAlgorithm.calculate_positional_scarcity]
    split_ifs with h1 h2 h3
    · exact Or.inl rfl
    · refine Or.inr ⟨by norm_num, by norm_num⟩
    · refine Or.inr ⟨by norm_num, by norm_num⟩
    · refine Or.inr ⟨?_, min_le_left _ _⟩
      exact le_min (by norm_num) (le_max_left _ _)

/-- C6 witness: over the five-player pool, one QB gives scarcity 1, no
kicker gives scarcity 0, and the two RBs take the clamp form. -/
theorem scarcity_claim_witness :
    (RegretDraftAlgorithm.init pool5).calculate_positional_scarcity "QB" = 1 ∧
    (RegretDraftAlgorithm.init pool5).calculate_positional_scarcity "K" = 0 ∧
    (RegretDraftAlgorithm.init pool5).calculate_positional_scarcity "RB"
      = clampQ (1/10) 1
        (1 / ((RegretDraftAlgorithm.init pool5).qualityCount "RB" : ℚ)) := by
  refine ⟨?_, ?_, ?_⟩
  · exact (scarcity_claim (RegretDraftAlgorithm.init pool5) "QB").2.1 (by decide)
  · exact (scarcity_claim (RegretDraftAlgorithm.init pool5) "K").1 (by decide)
  · exact (scarcity_claim (RegretDraftAlgorithm.init pool5) "RB").2.2.1 (by decide)
